import Mathlib

set_option maxHeartbeats 1600000

/-
Verification of the shady-render subsystem (src/lib/shady-render.ts):
a shallow embedding of the ShadyCSS-aware template factory, the recursive
style extractor, the style reinjector, the per-scope render gate and the
render dispatcher, together with proofs about them.
-/

namespace ShadyRender

/-- A DOM node as seen by the tree walker.  The walker in the source is
created with SHOW_ELEMENT, SHOW_COMMENT and SHOW_TEXT, so exactly these
three node kinds occur in a template content tree. -/
inductive DomNode where
  | element (localName : String) (children : List DomNode)
  | text
  | comment

/-- The childNodes list of a node (empty for text and comment nodes). -/
def DomNode.children : DomNode → List DomNode
  | .element _ cs => cs
  | .text => []
  | .comment => []

/-- Embeds the source test comparing node.localName with the style tag name;
for text and comment nodes localName is undefined and the test is false. -/
def isStyleNode : DomNode → Bool
  | .element ln _ => ln == "style"
  | _ => false

mutual
/-- Document-order (pre-order) traversal sequence of one node: the node
itself followed by its descendants, as visited by the tree walker. -/
def flattenNode : DomNode → List DomNode
  | .element ln cs => .element ln cs :: flattenForest cs
  | .text => [.text]
  | .comment => [.comment]

/-- Document-order traversal sequence of a forest (the children of the
template content fragment; the fragment itself is not visited). -/
def flattenForest : List DomNode → List DomNode
  | [] => []
  | n :: rest => flattenNode n ++ flattenForest rest
end

/-- Net effect of the deferred nodesToRemove.forEach removal at the end of
extractStylesFromTemplate: every style element encountered by the walker is
removed from the tree (a style nested below a removed style disappears with
its parent, so the net effect is removal of all style elements). -/
def removeStyleNodes : List DomNode → List DomNode
  | [] => []
  | .element ln cs :: rest =>
      if ln == "style" then removeStyleNodes rest
      else .element ln (removeStyleNodes cs) :: removeStyleNodes rest
  | .text :: rest => .text :: removeStyleNodes rest
  | .comment :: rest => .comment :: removeStyleNodes rest

/-- A TemplatePart record; only its mutable index field matters here.
The index is the position of the binding among all tree nodes visited in
document order, or -1 for a disabled binding. -/
structure Part where
  index : Int
deriving DecidableEq

/-- A compiled Template: the content fragment (list of top-level child
nodes) and the ordered list of binding parts. -/
structure Template where
  content : List DomNode
  parts : List Part

instance : Inhabited Template := ⟨⟨[], []⟩⟩

mutual
/-- A TemplateResult value: its kind tag (type), the identity of its static
strings array (stringsId, modelling reference identity of the
TemplateStringsArray), and the dynamic values. -/
inductive TemplateResult where
  | mk (type : String) (stringsId : Nat) (values : List Value)

/-- The shape of a dynamic value, as discriminated by extractStylesFromValue:
a nested TemplateResult, an array or other non-string iterable, a character
string, a non-iterable scalar (number, boolean, plain object), or the
JavaScript null and undefined values. -/
inductive Value where
  | tmpl (r : TemplateResult)
  | arr (items : List Value)
  | str (s : String)
  | scalar
  | nullV
  | undef
end

def TemplateResult.type : TemplateResult → String
  | .mk t _ _ => t

def TemplateResult.stringsId : TemplateResult → Nat
  | .mk _ s _ => s

def TemplateResult.values : TemplateResult → List Value
  | .mk _ _ vs => vs

/-- The only error this subsystem can raise on its own: the TypeError thrown
by the property access value[Symbol.iterator] when value is null or
undefined in extractStylesFromValue. -/
inductive JsError where
  | typeError
deriving DecidableEq

/-- Observable hook invocations, in call order: ShadyCSS.prepareTemplateDom,
the invocation of extractStylesFromTemplate by render (marker),
ShadyCSS.prepareTemplateStyles, ShadyCSS.styleElement on a host (hosts are
identified by a number), and the delegation to the base render primitive
(scoped records whether the scoped template factory was passed). -/
inductive Event where
  | prepareTemplateDom (scope : String)
  | extractInvoked (scope : String)
  | prepareTemplateStyles (scope : String)
  | styleElementOn (host : Nat)
  | baseRender (usedScopedFactory : Bool)
deriving DecidableEq

/-- The process-wide mutable state: the templateCaches map (cache key to a
map from strings identity to a template id), the template heap (template
ids model object identity of Template instances), the allocation counter,
the shadyRenderSet gate, the content of the current styleTemplate side
sink, and the log of observable hook invocations. -/
structure St where
  caches : String → Option (Nat → Option Nat)
  heap : Nat → Template
  nextId : Nat
  gate : List String
  sink : List DomNode
  trace : List Event

/-- The window.ShadyCSS capability: presence of the object, its nativeShadow
flag, truthiness of its ApplyShim member, and whether its
prepareTemplateStyles hook raises (the hook is an opaque collaborator). -/
structure ShadyCfg where
  present : Bool
  nativeShadow : Bool
  applyShim : Bool
  prepareStylesErr : Option JsError
deriving DecidableEq

def emit (e : Event) (st : St) : St := { st with trace := st.trace ++ [e] }

/-- Modelled from the spec: the base engine compiler (the Template
constructor of lit-html.js, which is not under src/) is an opaque function
from a TemplateResult to a compiled template; it is a parameter of every
definition that needs it. -/
def Compile := TemplateResult → Template

/-- The template factory produced by shadyTemplateFactory(scopeName),
applied to one TemplateResult: look up or create the per-key cache, look up
by strings identity, and on a miss invoke ShadyCSS.prepareTemplateDom (when
the capability object is present), compile, allocate a fresh template id
and store it.  Returns the id of the cached Template instance. -/
def shadyTemplateFactory (compile : Compile) (cfg : ShadyCfg)
    (scopeName : String) (result : TemplateResult) (st : St) : Nat × St :=
  let cacheKey := result.type ++ "--" ++ scopeName
  let lk := st.caches cacheKey
  let templateCache := match lk with
    | some m => m
    | none => fun _ => none
  let st1 := match lk with
    | some _ => st
    | none => { st with caches := Function.update st.caches cacheKey (some (fun _ => none)) }
  match templateCache result.stringsId with
  | some tid => (tid, st1)
  | none =>
      let st2 := if cfg.present then emit (.prepareTemplateDom scopeName) st1 else st1
      let t := compile result
      let tid := st2.nextId
      (tid,
       { st2 with
          heap := Function.update st2.heap tid t,
          nextId := tid + 1,
          caches := Function.update st2.caches cacheKey
            (some (Function.update templateCache result.stringsId (some tid))) })

/-- Write a new index into part number k of template tid (the in-place
part.index mutation of the source). -/
def setPartIndex (st : St) (tid k : Nat) (newIdx : Int) : St :=
  let t := st.heap tid
  { st with heap := Function.update st.heap tid ({ t with parts := t.parts.set k ⟨newIdx⟩ }) }

mutual

/-- extractStylesFromTemplate: compile-or-fetch the template for result via
the scoped factory, walk its content in document order fixing part indexes
and collecting style elements into the sink, then (only on normal
completion, as the source defers removal past the loop) remove the style
nodes from the content tree. -/
def extractStylesFromTemplate (compile : Compile) (cfg : ShadyCfg)
    (scopeName : String) (result : TemplateResult) (st : St) : Option JsError × St :=
  match result with
  | .mk ty sid vals =>
    let (tid, st1) := shadyTemplateFactory compile cfg scopeName (.mk ty sid vals) st
    match walkNodes compile cfg scopeName tid (flattenForest (st1.heap tid).content)
        vals 0 0 0 (-1) st1 with
    | (some e, st2) => (some e, st2)
    | (none, st2) =>
        let t := st2.heap tid
        (none, { st2 with heap := (Function.update st2.heap tid
                  ({ t with content := removeStyleNodes t.content })) })
termination_by (sizeOf result, 0)
decreasing_by
  apply Prod.Lex.left
  simp only [TemplateResult.mk.sizeOf_spec]
  omega

/-- The while (walker.nextNode()) loop of extractStylesFromTemplate.  Per
visited node: bump index; on a style element set disableUntil and
partDelta from 1 + its immediate child count and append a deep clone to the
sink; if the current part (read through the heap, as parts are mutated in
place) has this index, rewrite its index (disable to -1 inside a removed
range, else shift by partDelta), then recurse into the corresponding
dynamic value.  A parts cursor beyond values.length reads the undefined
value, whose iterator probe throws. -/
def walkNodes (compile : Compile) (cfg : ShadyCfg) (scopeName : String)
    (tid : Nat) (nodes : List DomNode) (values : List Value) (partIndex : Nat)
    (partDelta disableUntil index : Int) (st : St) : Option JsError × St :=
  match nodes with
  | [] => (none, st)
  | n :: rest =>
      let index1 := index + 1
      let removeCount : Int := (n.children.length : Int) + 1
      let disableUntil1 := if isStyleNode n then index1 + removeCount else disableUntil
      let partDelta1 := if isStyleNode n then partDelta - removeCount else partDelta
      let st1 := if isStyleNode n then { st with sink := st.sink ++ [n] } else st
      match h : (st1.heap tid).parts.get? partIndex with
      | some p =>
          if p.index = index1 then
            let newIdx := if index1 < disableUntil1 then (-1 : Int) else p.index + partDelta1
            let st2 := setPartIndex st1 tid partIndex newIdx
            match hv : values.get? partIndex with
            | none => (some .typeError, st2)
            | some v =>
                match extractStylesFromValue compile cfg scopeName v st2 with
                | (some e, st3) => (some e, st3)
                | (none, st3) =>
                    walkNodes compile cfg scopeName tid rest values (partIndex + 1)
                      partDelta1 disableUntil1 index1 st3
          else
            walkNodes compile cfg scopeName tid rest values partIndex
              partDelta1 disableUntil1 index1 st1
      | none =>
          walkNodes compile cfg scopeName tid rest values partIndex
            partDelta1 disableUntil1 index1 st1
termination_by (sizeOf values, nodes.length)
decreasing_by
  · apply Prod.Lex.left
    exact List.sizeOf_lt_of_mem (List.get?_mem hv)
  · apply Prod.Lex.right
    simp
  · apply Prod.Lex.right
    simp
  · apply Prod.Lex.right
    simp

/-- extractStylesFromValue: recurse into a TemplateResult; iterate an array
or other non-string iterable; ignore strings and non-iterable scalars; and
for null or undefined the iterator probe value[Symbol.iterator] throws a
TypeError. -/
def extractStylesFromValue (compile : Compile) (cfg : ShadyCfg)
    (scopeName : String) (v : Value) (st : St) : Option JsError × St :=
  match v with
  | .tmpl r => extractStylesFromTemplate compile cfg scopeName r st
  | .arr items => extractStylesFromValues compile cfg scopeName items st
  | .str _ => (none, st)
  | .scalar => (none, st)
  | .nullV => (some .typeError, st)
  | .undef => (some .typeError, st)
termination_by (sizeOf v, 0)
decreasing_by
  · apply Prod.Lex.left
    simp only [Value.tmpl.sizeOf_spec]
    omega
  · apply Prod.Lex.left
    simp only [Value.arr.sizeOf_spec]
    omega

/-- The for (const item of value) loop of extractStylesFromValue. -/
def extractStylesFromValues (compile : Compile) (cfg : ShadyCfg)
    (scopeName : String) (items : List Value) (st : St) : Option JsError × St :=
  match items with
  | [] => (none, st)
  | v :: rest =>
      match extractStylesFromValue compile cfg scopeName v st with
      | (some e, st1) => (some e, st1)
      | (none, st1) => extractStylesFromValues compile cfg scopeName rest st1
termination_by (sizeOf items, 0)
decreasing_by
  · apply Prod.Lex.left
    simp only [List.cons.sizeOf_spec]
    omega
  · apply Prod.Lex.left
    simp only [List.cons.sizeOf_spec]
    omega

end

/-- insertStyleInTemplate: insert the style element as the first child of
the template content and add 1 + its immediate child count to the index of
every part whose index is non-negative; disabled (-1) parts are untouched. -/
def insertStyleInTemplate (t : Template) (style : DomNode) : Template :=
  let adjustIndex : Int := 1 + (style.children.length : Int)
  { content := style :: t.content,
    parts := t.parts.map fun p => if p.index ≥ 0 then ⟨p.index + adjustIndex⟩ else p }

mutual
/-- querySelector applied to one node: first style element in document
order within the subtree rooted at the node. -/
def querySelectorStyleNode : DomNode → Option DomNode
  | .element ln cs =>
      if ln == "style" then some (.element ln cs) else querySelectorStyleList cs
  | .text => none
  | .comment => none

/-- styleTemplate.content.querySelector of the source: first style element
in document order in a forest. -/
def querySelectorStyleList : List DomNode → Option DomNode
  | [] => none
  | n :: rest =>
      match querySelectorStyleNode n with
      | some s => some s
      | none => querySelectorStyleList rest
end

/-- The module-level constant needsStyleFixup = window.ShadyCSS &&
(!window.ShadyCSS.nativeShadow || window.ShadyCSS.ApplyShim), evaluated
once from the flags present at module load. -/
def needsStyleFixup (cfg : ShadyCfg) : Bool :=
  cfg.present && (!cfg.nativeShadow || cfg.applyShim)

/-- A render container: either a shadow-root-like document fragment (with
an optional host element) or a plain element. -/
structure Container where
  isFragment : Bool
  host : Option Nat

/-- hostForNode: node.nodeType === Node.DOCUMENT_FRAGMENT_NODE && node.host;
yields the host only for a fragment that has one (otherwise the JavaScript
expression is falsy). -/
def hostForNode (c : Container) : Option Nat :=
  if c.isFragment then c.host else none

/-- The exported render entry point.  The needs argument is the value of
the module-load constant needsStyleFixup; cfg is the window.ShadyCSS
capability as read at call time by the hooks.  On the fixup path with an
ungated scope: mark the gate, create a fresh side style template, extract,
hand the side template to prepareTemplateStyles, reinject the processed
style when nativeShadow is set, then invoke styleElement on the host and
delegate to the base render primitive with the scoped factory.  The
delegation to the base render primitive of lit-html.js (not under src/) is
modelled from the spec as the emission of a baseRender event recording
whether the scoped factory was passed as the compiler. -/
def render (compile : Compile) (needs : Bool) (cfg : ShadyCfg)
    (result : TemplateResult) (container : Container) (scopeName : String)
    (st : St) : Option JsError × St :=
  match hostForNode container with
  | some host =>
      if needs then
        if scopeName ∈ st.gate then
          (none, emit (.baseRender true) (emit (.styleElementOn host) st))
        else
          let st1 := { st with gate := scopeName :: st.gate, sink := [] }
          let st2 := emit (.extractInvoked scopeName) st1
          match extractStylesFromTemplate compile cfg scopeName result st2 with
          | (some e, st3) => (some e, st3)
          | (none, st3) =>
              let st4 := emit (.prepareTemplateStyles scopeName) st3
              match cfg.prepareStylesErr with
              | some e => (some e, st4)
              | none =>
                  let st5 :=
                    if cfg.nativeShadow then
                      match querySelectorStyleList st4.sink with
                      | some style =>
                          let (tid, st6) :=
                            shadyTemplateFactory compile cfg scopeName result st4
                          { st6 with heap := (Function.update st6.heap tid
                              (insertStyleInTemplate (st6.heap tid) style)) }
                      | none => st4
                    else st4
                  (none, emit (.baseRender true) (emit (.styleElementOn host) st5))
      else (none, emit (.baseRender false) st)
  | none => (none, emit (.baseRender false) st)

/-- A sequence of render calls, stopping at the first raised error (an
uncaught error aborts the remaining synchronous calls of the batch). -/
def renderMany (compile : Compile) (needs : Bool) (cfg : ShadyCfg)
    (calls : List (TemplateResult × Container × String)) (st : St) :
    Option JsError × St :=
  match calls with
  | [] => (none, st)
  | c :: rest =>
      match render compile needs cfg c.1 c.2.1 c.2.2 st with
      | (some e, st1) => (some e, st1)
      | (none, st1) => renderMany compile needs cfg rest st1

/-- A sequence of template factory invocations (results of the returned
template ignored, state threaded). -/
def factoryMany (compile : Compile) (cfg : ShadyCfg)
    (calls : List (String × TemplateResult)) (st : St) : St :=
  match calls with
  | [] => st
  | (sc, r) :: rest =>
      factoryMany compile cfg rest (shadyTemplateFactory compile cfg sc r st).2

/-- The process state at module load: empty caches, no allocated
templates, empty render gate, empty side sink, no hooks invoked. -/
def initSt : St :=
  { caches := fun _ => none, heap := fun _ => default, nextId := 0,
    gate := [], sink := [], trace := [] }

/-- A state whose caches hold exactly one compiled template t under cache
key key and strings identity sid, at heap id tid. -/
def singleTemplateSt (key : String) (sid tid : Nat) (t : Template) : St :=
  { caches := Function.update (fun _ => none) key
      (some (Function.update (fun _ => none) sid (some tid))),
    heap := Function.update (fun _ => default) tid t,
    nextId := tid + 1, gate := [], sink := [], trace := [] }

/-- Pure mirror of the per-node index arithmetic of the walk loop: given
the traversal suffix and the loop state (partDelta, disableUntil, index),
the final index the walk assigns to a part whose recorded index is i.  A
part whose index is never reached is left unchanged. -/
def reindexFun (nodes : List DomNode) (partDelta disableUntil index : Int)
    (i : Int) : Int :=
  match nodes with
  | [] => i
  | n :: rest =>
      let index1 := index + 1
      let removeCount : Int := (n.children.length : Int) + 1
      let disableUntil1 := if isStyleNode n then index1 + removeCount else disableUntil
      let partDelta1 := if isStyleNode n then partDelta - removeCount else partDelta
      if i = index1 then
        (if index1 < disableUntil1 then (-1 : Int) else i + partDelta1)
      else reindexFun rest partDelta1 disableUntil1 index1 i

/-- Pure mirror of the evolution of (partDelta, disableUntil) along a
traversal segment. -/
def styleScan (nodes : List DomNode) (partDelta disableUntil index : Int) :
    Int × Int :=
  match nodes with
  | [] => (partDelta, disableUntil)
  | n :: rest =>
      let index1 := index + 1
      let removeCount : Int := (n.children.length : Int) + 1
      let disableUntil1 := if isStyleNode n then index1 + removeCount else disableUntil
      let partDelta1 := if isStyleNode n then partDelta - removeCount else partDelta
      styleScan rest partDelta1 disableUntil1 index1

/-! ### Invariants and auxiliary lemmas -/

/-- Allocator invariant: every template id reachable through the caches has
been allocated. -/
def CacheInv (st : St) : Prop :=
  ∀ key m sid tid, st.caches key = some m → m sid = some tid → tid < st.nextId

/-- A forest contains no style element anywhere (checked over its
document-order traversal). -/
def styleFreeB (cs : List DomNode) : Bool :=
  (flattenForest cs).all (fun n => !isStyleNode n)

/-- Every template in the heap is style free. -/
def heapStyleFree (st : St) : Prop :=
  ∀ t, styleFreeB (st.heap t).content = true

/-- The opaque base compiler only produces style-free templates. -/
def compileStyleFree (compile : Compile) : Prop :=
  ∀ r, styleFreeB (compile r).content = true

/-- Unconditional facts preserved by every step of the extraction
machinery: the trace can only grow by prepareTemplateDom events, the render
gate is untouched, template ids only grow, existing cache entries survive,
and the allocator invariant is preserved. -/
structure ExtPresA (st stp : St) : Prop where
  trace : ∃ d, stp.trace = st.trace ++ d ∧ ∀ e ∈ d, ∃ s, e = Event.prepareTemplateDom s
  gate : stp.gate = st.gate
  nid : st.nextId ≤ stp.nextId
  caches : ∀ key m sid tid, st.caches key = some m → m sid = some tid →
       ∃ m2, stp.caches key = some m2 ∧ m2 sid = some tid
  inv : CacheInv st → CacheInv stp

/-- Consequences of extraction when every template in sight is style free:
the side sink is untouched, the heap remains style free, and all previously
allocated templates keep their part indices and content. -/
structure ExtPresB (st stp : St) : Prop where
  sink : stp.sink = st.sink
  hsf : heapStyleFree stp
  heap : ∀ t, t < st.nextId →
    (stp.heap t).parts.map Part.index = (st.heap t).parts.map Part.index
    ∧ (stp.heap t).content = (st.heap t).content

/-- Values ignored by extractStylesFromValue with no effect at all:
character strings and non-iterable scalars. -/
def isSimpleValue : Value → Bool
  | .str _ => true
  | .scalar => true
  | _ => false

/-- Concrete opaque compiler and ShadyCSS capability used by concrete
evaluations (capability present, no native shadow, no ApplyShim, hooks
succeed). -/
def compile0 : Compile := fun _ => ⟨[], []⟩

def cfg0 : ShadyCfg :=
  { present := true, nativeShadow := false, applyShim := false, prepareStylesErr := none }

/-- One style element with one text child followed by a paragraph and a div
carrying two tied bindings (two bound attributes on the same element). -/
def tmplC3c : Template :=
  ⟨[.element "style" [.text], .element "p" [], .element "div" []], [⟨3⟩, ⟨3⟩]⟩

def stC3c : St := singleTemplateSt "html--c3" 13 0 tmplC3c

def tmplC4c : Template := ⟨[.element "style" [.text], .element "p" []], [⟨0⟩, ⟨0⟩]⟩

def stC4c : St := singleTemplateSt "html--c4" 14 0 tmplC4c

def tmplC4w : Template := ⟨[.element "style" [.text], .element "p" []], [⟨1⟩]⟩

def stC4w : St := singleTemplateSt "html--w4" 4 0 tmplC4w

def tmplC5c : Template := ⟨[.element "style" [.text], .element "p" []], [⟨2⟩, ⟨2⟩]⟩

def stC5c : St := singleTemplateSt "html--c5" 15 0 tmplC5c

def tmplC5w : Template := ⟨[.element "style" [.text], .element "p" []], [⟨2⟩]⟩

def stC5w : St := singleTemplateSt "html--w5" 5 0 tmplC5w

def tmplC6w : Template := ⟨[.element "p" [], .text], [⟨0⟩]⟩

def stC6w : St := singleTemplateSt "html--w6" 6 0 tmplC6w

def resC6w : TemplateResult := .mk "html" 6 [.tmpl (.mk "html" 66 [.arr [.str "x"]])]

def tmplC10 : Template := ⟨[.text], [⟨0⟩]⟩

def stC10 : St := singleTemplateSt "html--t10" 8 0 tmplC10

def isStyleElementEvent : Event → Bool
  | .styleElementOn _ => true
  | _ => false

def callsC8w : List (TemplateResult × Container × String) :=
  [(.mk "html" 5 [], ⟨true, some 2⟩, "w8"), (.mk "html" 5 [], ⟨true, some 2⟩, "w8")]

theorem map_index_set_self (P : List Part) (k : Nat) (i : Int)
    (hk : k < P.length) (hi : P[k].index = i) :
    (P.set k (⟨i⟩ : Part)).map Part.index = P.map Part.index := by
  apply List.ext_getElem
  · simp
  · intro n h1 h2
    simp only [List.getElem_map, List.getElem_set]
    split
    · next heq => subst heq; simp [← hi]
    · rfl

theorem setPartIndex_heap_other (st : St) (tid k : Nat) (i : Int) (t : Nat)
    (h : t ≠ tid) : (setPartIndex st tid k i).heap t = st.heap t := by
  simp [setPartIndex, Function.update, h]

theorem shadyTemplateFactory_hit (compile : Compile) (cfg : ShadyCfg)
    (sc : String) (r : TemplateResult) (st : St) (m : Nat → Option Nat) (tid : Nat)
    (h1 : st.caches (r.type ++ "--" ++ sc) = some m)
    (h2 : m r.stringsId = some tid) :
    shadyTemplateFactory compile cfg sc r st = (tid, st) := by
  simp [shadyTemplateFactory, h1, h2]

/-- Everything the rest of the development needs to know about one template
factory call: the trace only grows by prepareTemplateDom events, gate and
sink are untouched, ids only grow, existing cache entries survive, the
allocator invariant is preserved, the returned id is allocated, the heap is
untouched except possibly at the returned id, where it is either untouched
or freshly compiled, and afterwards the cache maps this result to the
returned id. -/
theorem shadyTemplateFactory_pres (compile : Compile) (cfg : ShadyCfg)
    (sc : String) (r : TemplateResult) (st : St) :
    ((shadyTemplateFactory compile cfg sc r st).2.trace = st.trace
      ∨ (shadyTemplateFactory compile cfg sc r st).2.trace
          = st.trace ++ [Event.prepareTemplateDom sc])
  ∧ (shadyTemplateFactory compile cfg sc r st).2.gate = st.gate
  ∧ (shadyTemplateFactory compile cfg sc r st).2.sink = st.sink
  ∧ st.nextId ≤ (shadyTemplateFactory compile cfg sc r st).2.nextId
  ∧ (∀ key m sid tid, st.caches key = some m → m sid = some tid →
       ∃ m2, (shadyTemplateFactory compile cfg sc r st).2.caches key = some m2
         ∧ m2 sid = some tid)
  ∧ (CacheInv st → CacheInv (shadyTemplateFactory compile cfg sc r st).2)
  ∧ (CacheInv st →
      (shadyTemplateFactory compile cfg sc r st).1
        < (shadyTemplateFactory compile cfg sc r st).2.nextId)
  ∧ (∀ t, t ≠ (shadyTemplateFactory compile cfg sc r st).1 →
      (shadyTemplateFactory compile cfg sc r st).2.heap t = st.heap t)
  ∧ ((shadyTemplateFactory compile cfg sc r st).2.heap
        (shadyTemplateFactory compile cfg sc r st).1
      = st.heap (shadyTemplateFactory compile cfg sc r st).1
    ∨ ((shadyTemplateFactory compile cfg sc r st).1 = st.nextId
        ∧ (shadyTemplateFactory compile cfg sc r st).2.heap
            (shadyTemplateFactory compile cfg sc r st).1 = compile r))
  ∧ (∃ m2, (shadyTemplateFactory compile cfg sc r st).2.caches (r.type ++ "--" ++ sc)
       = some m2 ∧ m2 r.stringsId = some (shadyTemplateFactory compile cfg sc r st).1) := by
  rcases hm : st.caches (r.type ++ "--" ++ sc) with _ | m
  · -- no per-key cache yet: create it, then miss
    simp only [shadyTemplateFactory, hm]
    refine ⟨?_, ?_, ?_, ?_, ?_, ?_, ?_, ?_, ?_, ?_⟩
    · by_cases hp : cfg.present <;> simp [hp, emit]
    · by_cases hp : cfg.present <;> simp [hp, emit]
    · by_cases hp : cfg.present <;> simp [hp, emit]
    · by_cases hp : cfg.present <;> simp [hp, emit]
    · intro key m1 sid tid h1 h2
      have hkey : key ≠ r.type ++ "--" ++ sc := by
        intro he; rw [he, hm] at h1; cases h1
      by_cases hp : cfg.present <;>
        simp [hp, emit, Function.update, hkey] <;> exact ⟨m1, h1, h2⟩
    · intro hinv key m1 sid tid h1 h2
      by_cases hp : cfg.present <;> simp [hp, emit, Function.update] at h1 ⊢ <;>
      · rcases eq_or_ne key (r.type ++ "--" ++ sc) with hk | hk
        · subst hk
          simp at h1
          subst h1
          simp [Function.update] at h2
          rcases eq_or_ne sid r.stringsId with hs | hs
          · subst hs; simp at h2; omega
          · simp [hs] at h2
        · simp [hk] at h1
          have := hinv key m1 sid tid h1 h2
          omega
    · intro _
      by_cases hp : cfg.present <;> simp [hp, emit]
    · intro t ht
      by_cases hp : cfg.present <;> simp [hp, emit, Function.update] at ht ⊢ <;> simp [ht]
    · refine Or.inr ⟨?_, ?_⟩ <;>
        by_cases hp : cfg.present <;> simp [hp, emit, Function.update]
    · by_cases hp : cfg.present <;> simp [hp, emit, Function.update]
  · rcases hs : m r.stringsId with _ | tid
    · -- per-key cache exists, strings miss
      simp only [shadyTemplateFactory, hm, hs]
      refine ⟨?_, ?_, ?_, ?_, ?_, ?_, ?_, ?_, ?_, ?_⟩
      · by_cases hp : cfg.present <;> simp [hp, emit]
      · by_cases hp : cfg.present <;> simp [hp, emit]
      · by_cases hp : cfg.present <;> simp [hp, emit]
      · by_cases hp : cfg.present <;> simp [hp, emit]
      · intro key m1 sid tid h1 h2
        rcases eq_or_ne key (r.type ++ "--" ++ sc) with hk | hk
        · subst hk
          rw [hm] at h1
          injection h1 with h1e
          subst h1e
          have hsid : sid ≠ r.stringsId := by
            intro he; rw [he, hs] at h2; cases h2
          by_cases hp : cfg.present <;>
            simp [hp, emit, Function.update, hsid, h2]
        · by_cases hp : cfg.present <;>
            simp [hp, emit, Function.update, hk] <;> exact ⟨m1, h1, h2⟩
      · intro hinv key m1 sid tid h1 h2
        by_cases hp : cfg.present <;> simp [hp, emit, Function.update] at h1 ⊢ <;>
        · rcases eq_or_ne key (r.type ++ "--" ++ sc) with hk | hk
          · subst hk
            simp at h1
            subst h1
            simp [Function.update] at h2
            rcases eq_or_ne sid r.stringsId with hss | hss
            · subst hss; simp at h2; omega
            · simp [hss] at h2
              have := hinv _ _ _ _ hm h2
              omega
          · simp [hk] at h1
            have := hinv key m1 sid tid h1 h2
            omega
      · intro _
        by_cases hp : cfg.present <;> simp [hp, emit]
      · intro t ht
        by_cases hp : cfg.present <;> simp [hp, emit, Function.update] at ht ⊢ <;> simp [ht]
      · refine Or.inr ⟨?_, ?_⟩ <;>
          by_cases hp : cfg.present <;> simp [hp, emit, Function.update]
      · by_cases hp : cfg.present <;> simp [hp, emit, Function.update]
    · -- cache hit
      have heq := shadyTemplateFactory_hit compile cfg sc r st m tid hm hs
      rw [heq]
      refine ⟨Or.inl rfl, rfl, rfl, le_refl _, ?_, ?_, ?_, ?_, Or.inl rfl, ⟨m, hm, hs⟩⟩
      · intro key m1 sid tid h1 h2; exact ⟨m1, h1, h2⟩
      · intro hinv; exact hinv
      · intro hinv; exact hinv _ _ _ _ hm hs
      · intro t _; rfl

theorem ExtPresA.idA (st : St) : ExtPresA st st :=
  ⟨⟨[], by simp, by simp⟩, by rfl, le_refl _, fun _ m _ _ h1 h2 => ⟨m, h1, h2⟩, id⟩

theorem ExtPresA.compA {st1 st2 st3 : St} (a : ExtPresA st1 st2)
    (b : ExtPresA st2 st3) : ExtPresA st1 st3 := by
  obtain ⟨⟨d1, hd1, hd1p⟩, g1, n1, c1, i1⟩ := a
  obtain ⟨⟨d2, hd2, hd2p⟩, g2, n2, c2, i2⟩ := b
  refine ⟨⟨d1 ++ d2, by rw [hd2, hd1, List.append_assoc], ?_⟩, g2.trans g1,
    le_trans n1 n2, ?_, fun h => i2 (i1 h)⟩
  · intro e he
    rcases List.mem_append.mp he with h | h
    exacts [hd1p e h, hd2p e h]
  · intro key m sid tid h1 h2
    obtain ⟨m2, hm2, hm2s⟩ := c1 key m sid tid h1 h2
    exact c2 key m2 sid tid hm2 hm2s

theorem ExtPresB.idB (st : St) (h : heapStyleFree st) : ExtPresB st st :=
  ⟨by rfl, h, fun _ _ => ⟨by rfl, by rfl⟩⟩

theorem ExtPresB.compB {st1 st2 st3 : St} (a12 : ExtPresA st1 st2)
    (b1 : ExtPresB st1 st2) (b2 : ExtPresB st2 st3) : ExtPresB st1 st3 := by
  refine ⟨b2.sink.trans b1.sink, b2.hsf, fun t ht => ?_⟩
  obtain ⟨p2, c2⟩ := b2.heap t (lt_of_lt_of_le ht a12.nid)
  obtain ⟨p1, c1⟩ := b1.heap t ht
  exact ⟨p2.trans p1, c2.trans c1⟩

theorem styleFreeB_mem {cs : List DomNode} (h : styleFreeB cs = true)
    {n : DomNode} (hn : n ∈ flattenForest cs) : isStyleNode n = false := by
  have := List.all_eq_true.mp h n hn
  simpa using this

theorem styleFreeB_element {ln : String} {cs rest : List DomNode} :
    styleFreeB (DomNode.element ln cs :: rest)
      = (!(ln == "style") && (styleFreeB cs && styleFreeB rest)) := by
  simp [styleFreeB, flattenForest, flattenNode, isStyleNode, List.all_append,
    Bool.and_assoc]

theorem styleFreeB_text {rest : List DomNode} :
    styleFreeB (DomNode.text :: rest) = styleFreeB rest := by
  simp [styleFreeB, flattenForest, flattenNode, isStyleNode]

theorem styleFreeB_comment {rest : List DomNode} :
    styleFreeB (DomNode.comment :: rest) = styleFreeB rest := by
  simp [styleFreeB, flattenForest, flattenNode, isStyleNode]

theorem removeStyleNodes_styleFree :
    ∀ (cs : List DomNode), styleFreeB cs = true → removeStyleNodes cs = cs
  | [], _ => by simp [removeStyleNodes]
  | .element ln cs2 :: rest, h => by
      rw [styleFreeB_element] at h
      simp only [Bool.and_eq_true, Bool.not_eq_true'] at h
      obtain ⟨h1, h2, h3⟩ := h
      simp only [removeStyleNodes, h1, Bool.false_eq_true, if_false,
        removeStyleNodes_styleFree cs2 h2, removeStyleNodes_styleFree rest h3]
  | .text :: rest, h => by
      rw [styleFreeB_text] at h
      simp [removeStyleNodes, removeStyleNodes_styleFree rest h]
  | .comment :: rest, h => by
      rw [styleFreeB_comment] at h
      simp [removeStyleNodes, removeStyleNodes_styleFree rest h]

theorem shadyTemplateFactory_presA (compile : Compile) (cfg : ShadyCfg)
    (sc : String) (r : TemplateResult) (st : St) :
    ExtPresA st (shadyTemplateFactory compile cfg sc r st).2 := by
  obtain ⟨h1, h2, h3, h4, h5, h6, _, _, _, _⟩ :=
    shadyTemplateFactory_pres compile cfg sc r st
  refine ⟨?_, h2, h4, h5, h6⟩
  rcases h1 with h | h
  · exact ⟨[], by simp [h], by simp⟩
  · exact ⟨[Event.prepareTemplateDom sc], by simp [h], by simp⟩

theorem shadyTemplateFactory_presB (compile : Compile) (cfg : ShadyCfg)
    (sc : String) (r : TemplateResult) (st : St)
    (hsf : heapStyleFree st) (hcf : compileStyleFree compile) :
    ExtPresB st (shadyTemplateFactory compile cfg sc r st).2 := by
  obtain ⟨_, _, h3, _, _, _, _, h8, h9, _⟩ :=
    shadyTemplateFactory_pres compile cfg sc r st
  refine ⟨h3, ?_, ?_⟩
  · intro t
    rcases eq_or_ne t (shadyTemplateFactory compile cfg sc r st).1 with he | he
    · subst he
      rcases h9 with h | ⟨_, h⟩
      · rw [h]; exact hsf _
      · rw [h]; exact hcf _
    · rw [h8 t he]; exact hsf _
  · intro t ht
    rcases eq_or_ne t (shadyTemplateFactory compile cfg sc r st).1 with he | he
    · subst he
      rcases h9 with h | ⟨hfresh, _⟩
      · rw [h]; exact ⟨by rfl, by rfl⟩
      · omega
    · rw [h8 t he]; exact ⟨by rfl, by rfl⟩

theorem setPartIndex_presA (st : St) (tid k : Nat) (i : Int) :
    ExtPresA st (setPartIndex st tid k i) :=
  ⟨⟨[], by simp [setPartIndex], by simp⟩, by rfl, le_refl _,
    fun _ m _ _ h1 h2 => ⟨m, h1, h2⟩, id⟩

theorem setPartIndex_presB (st : St) (tid k : Nat) (p : Part)
    (hget : (st.heap tid).parts.get? k = some p) (hsf : heapStyleFree st) :
    ExtPresB st (setPartIndex st tid k p.index) := by
  obtain ⟨hk, hpe⟩ := List.get?_eq_some.mp hget
  refine ⟨by rfl, ?_, ?_⟩
  · intro t
    rcases eq_or_ne t tid with he | he
    · subst he
      have hh2 : (setPartIndex st t k p.index).heap t
          = { st.heap t with parts := (st.heap t).parts.set k ⟨p.index⟩ } := by
        simp [setPartIndex, Function.update]
      show styleFreeB ((setPartIndex st t k p.index).heap t).content = true
      rw [hh2]
      exact hsf t
    · rw [setPartIndex_heap_other st tid k p.index t he]
      exact hsf t
  · intro t _
    rcases eq_or_ne t tid with he | he
    · subst he
      have hh : (setPartIndex st t k p.index).heap t
          = { st.heap t with parts := (st.heap t).parts.set k ⟨p.index⟩ } := by
        simp [setPartIndex, Function.update]
      rw [hh]
      refine ⟨?_, by rfl⟩
      exact map_index_set_self _ k p.index hk (by rw [← hpe]; rfl)
    · rw [setPartIndex_heap_other st tid k p.index t he]
      exact ⟨by rfl, by rfl⟩

theorem sinkAppend_presA (st : St) (n : DomNode) :
    ExtPresA st { st with sink := st.sink ++ [n] } :=
  ⟨⟨[], by simp, by simp⟩, by rfl, le_refl _,
    fun _ m _ _ h1 h2 => ⟨m, h1, h2⟩, id⟩

mutual

theorem extractStylesFromTemplate_pres (compile : Compile) (cfg : ShadyCfg)
    (sc : String) (result : TemplateResult) (st : St) :
    ExtPresA st (extractStylesFromTemplate compile cfg sc result st).2
    ∧ (CacheInv st → heapStyleFree st → compileStyleFree compile →
        ExtPresB st (extractStylesFromTemplate compile cfg sc result st).2) := by
  rcases result with ⟨ty, sid, vals⟩
  simp only [extractStylesFromTemplate]
  rcases hfac : shadyTemplateFactory compile cfg sc (.mk ty sid vals) st with ⟨tid, st1⟩
  simp only [hfac]
  have hfA : ExtPresA st st1 := by
    have h := shadyTemplateFactory_presA compile cfg sc (.mk ty sid vals) st
    rwa [hfac] at h
  have hw := walkNodes_pres compile cfg sc tid
    (flattenForest (st1.heap tid).content) vals 0 0 0 (-1) st1
  have hBfull : CacheInv st → heapStyleFree st → compileStyleFree compile →
      ExtPresB st (walkNodes compile cfg sc tid
        (flattenForest (st1.heap tid).content) vals 0 0 0 (-1) st1).2 := by
    intro hinv hsf hcf
    have hfB : ExtPresB st st1 := by
      have h := shadyTemplateFactory_presB compile cfg sc (.mk ty sid vals) st hsf hcf
      rwa [hfac] at h
    have hfree : ∀ n ∈ flattenForest (st1.heap tid).content, isStyleNode n = false :=
      fun n hn => styleFreeB_mem (hfB.hsf tid) hn
    have hwB : ExtPresB st1 (walkNodes compile cfg sc tid
        (flattenForest (st1.heap tid).content) vals 0 0 0 (-1) st1).2 :=
      hw.2 (hfA.inv hinv) hfB.hsf hcf hfree (by rfl) (by omega)
    exact ExtPresB.compB hfA hfB hwB
  split
  next e2 st2 hwalk =>
      rw [hwalk] at hw hBfull
      exact ⟨hfA.compA hw.1, hBfull⟩
  next st2 hwalk =>
      rw [hwalk] at hw hBfull
      constructor
      · refine (hfA.compA hw.1).compA ?_
        exact ⟨⟨[], by simp, by simp⟩, by rfl, le_refl _,
          fun _ m _ _ h1 h2 => ⟨m, h1, h2⟩, id⟩
      · intro hinv hsf hcf
        have hB := hBfull hinv hsf hcf
        have hid : removeStyleNodes (st2.heap tid).content = (st2.heap tid).content :=
          removeStyleNodes_styleFree _ (hB.hsf tid)
        refine ⟨hB.sink, ?_, ?_⟩
        · intro t
          rcases eq_or_ne t tid with he | he
          · subst he
            show styleFreeB ((Function.update st2.heap t
                { content := removeStyleNodes (st2.heap t).content,
                  parts := (st2.heap t).parts }) t).content = true
            rw [Function.update_same, hid]
            exact hB.hsf t
          · show styleFreeB ((Function.update st2.heap tid
                { content := removeStyleNodes (st2.heap tid).content,
                  parts := (st2.heap tid).parts }) t).content = true
            rw [Function.update_noteq he]
            exact hB.hsf t
        · intro t ht
          rcases eq_or_ne t tid with he | he
          · subst he
            have hu : (Function.update st2.heap t
                { content := removeStyleNodes (st2.heap t).content,
                  parts := (st2.heap t).parts }) t
                = { content := removeStyleNodes (st2.heap t).content,
                    parts := (st2.heap t).parts } := Function.update_same t _ _
            show ((Function.update st2.heap t
                { content := removeStyleNodes (st2.heap t).content,
                  parts := (st2.heap t).parts }) t).parts.map Part.index
                  = (st.heap t).parts.map Part.index
              ∧ ((Function.update st2.heap t
                { content := removeStyleNodes (st2.heap t).content,
                  parts := (st2.heap t).parts }) t).content = (st.heap t).content
            rw [hu, hid]
            exact hB.heap t ht
          · have hu : (Function.update st2.heap tid
                { content := removeStyleNodes (st2.heap tid).content,
                  parts := (st2.heap tid).parts }) t = st2.heap t :=
              Function.update_noteq he _ _
            show ((Function.update st2.heap tid
                { content := removeStyleNodes (st2.heap tid).content,
                  parts := (st2.heap tid).parts }) t).parts.map Part.index
                  = (st.heap t).parts.map Part.index
              ∧ ((Function.update st2.heap tid
                { content := removeStyleNodes (st2.heap tid).content,
                  parts := (st2.heap tid).parts }) t).content = (st.heap t).content
            rw [hu]
            exact hB.heap t ht
termination_by (sizeOf result, 0)
decreasing_by
  apply Prod.Lex.left
  simp only [TemplateResult.mk.sizeOf_spec]
  omega

theorem walkNodes_pres (compile : Compile) (cfg : ShadyCfg) (sc : String)
    (tid : Nat) (nodes : List DomNode) (values : List Value) (partIndex : Nat)
    (partDelta disableUntil index : Int) (st : St) :
    ExtPresA st (walkNodes compile cfg sc tid nodes values partIndex
        partDelta disableUntil index st).2
    ∧ (CacheInv st → heapStyleFree st → compileStyleFree compile →
        (∀ n ∈ nodes, isStyleNode n = false) → partDelta = 0 →
        disableUntil ≤ index + 1 →
        ExtPresB st (walkNodes compile cfg sc tid nodes values partIndex
            partDelta disableUntil index st).2) := by
  match nodes with
  | [] =>
      simp only [walkNodes]
      exact ⟨ExtPresA.idA st, fun _ hsf _ _ _ _ => ExtPresB.idB st hsf⟩
  | n :: rest =>
      cases hst : isStyleNode n with
      | true =>
          simp only [walkNodes, hst, if_true]
          have hA1 : ExtPresA st { st with sink := st.sink ++ [n] } :=
            sinkAppend_presA st n
          have hvac : ∀ (stx : St), (CacheInv st → heapStyleFree st →
              compileStyleFree compile →
              (∀ m ∈ n :: rest, isStyleNode m = false) → partDelta = 0 →
              disableUntil ≤ index + 1 → ExtPresB st stx) := by
            intro stx _ _ _ hfree _ _
            have h1 := hfree n (by simp)
            rw [hst] at h1
            cases h1
          split
          next p hget =>
            simp only [hst, if_true] at hget ⊢
            split
            next hpi =>
              split
              next hv =>
                refine ⟨hA1.compA (setPartIndex_presA _ tid partIndex _), hvac _⟩
              next v hv =>
                split
                next e3 st3 hev =>
                  have hevP := extractStylesFromValue_pres compile cfg sc v
                    (setPartIndex { st with sink := st.sink ++ [n] } tid partIndex
                      (if index + 1 < index + 1 + ((n.children.length : Int) + 1) then -1
                       else p.index + (partDelta - ((n.children.length : Int) + 1))))
                  rw [hev] at hevP
                  exact ⟨(hA1.compA (setPartIndex_presA _ tid partIndex _)).compA hevP.1,
                    hvac _⟩
                next st3 hev =>
                  have hevP := extractStylesFromValue_pres compile cfg sc v
                    (setPartIndex { st with sink := st.sink ++ [n] } tid partIndex
                      (if index + 1 < index + 1 + ((n.children.length : Int) + 1) then -1
                       else p.index + (partDelta - ((n.children.length : Int) + 1))))
                  rw [hev] at hevP
                  have hrest := walkNodes_pres compile cfg sc tid rest values (partIndex + 1)
                    (partDelta - ((n.children.length : Int) + 1))
                    (index + 1 + ((n.children.length : Int) + 1)) (index + 1) st3
                  exact ⟨((hA1.compA (setPartIndex_presA _ tid partIndex _)).compA
                    hevP.1).compA hrest.1, hvac _⟩
            next hpi =>
              have hrest := walkNodes_pres compile cfg sc tid rest values partIndex
                (partDelta - ((n.children.length : Int) + 1))
                (index + 1 + ((n.children.length : Int) + 1)) (index + 1)
                { st with sink := st.sink ++ [n] }
              exact ⟨hA1.compA hrest.1, hvac _⟩
          next hget =>
            simp only [hst, if_true] at hget ⊢
            have hrest := walkNodes_pres compile cfg sc tid rest values partIndex
              (partDelta - ((n.children.length : Int) + 1))
              (index + 1 + ((n.children.length : Int) + 1)) (index + 1)
              { st with sink := st.sink ++ [n] }
            exact ⟨hA1.compA hrest.1, hvac _⟩
      | false =>
          simp only [walkNodes, hst, Bool.false_eq_true, if_false]
          split
          next p hget =>
            simp only [hst, Bool.false_eq_true, if_false] at hget ⊢
            split
            next hpi =>
              split
              next hv =>
                refine ⟨setPartIndex_presA st tid partIndex _, ?_⟩
                intro hinv hsf hcf hfree hd hdu
                subst hd
                have hnew : (if index + 1 < disableUntil then (-1 : Int)
                    else p.index + 0) = p.index := by
                  rw [if_neg (by omega)]
                  omega
                rw [hnew]
                exact setPartIndex_presB st tid partIndex p hget hsf
              next v hv =>
                split
                next e3 st3 hev =>
                  have hevP := extractStylesFromValue_pres compile cfg sc v
                    (setPartIndex st tid partIndex
                      (if index + 1 < disableUntil then -1 else p.index + partDelta))
                  rw [hev] at hevP
                  refine ⟨(setPartIndex_presA st tid partIndex _).compA hevP.1, ?_⟩
                  intro hinv hsf hcf hfree hd hdu
                  subst hd
                  have hnew : (if index + 1 < disableUntil then (-1 : Int)
                      else p.index + 0) = p.index := by
                    rw [if_neg (by omega)]
                    omega
                  rw [hnew] at hevP
                  have hA2 : ExtPresA st (setPartIndex st tid partIndex p.index) :=
                    setPartIndex_presA st tid partIndex _
                  have hB2 : ExtPresB st (setPartIndex st tid partIndex p.index) :=
                    setPartIndex_presB st tid partIndex p hget hsf
                  have hBv : ExtPresB (setPartIndex st tid partIndex p.index) st3 :=
                    hevP.2 (hA2.inv hinv) hB2.hsf hcf
                  exact ExtPresB.compB hA2 hB2 hBv
                next st3 hev =>
                  have hevP := extractStylesFromValue_pres compile cfg sc v
                    (setPartIndex st tid partIndex
                      (if index + 1 < disableUntil then -1 else p.index + partDelta))
                  rw [hev] at hevP
                  have hrest := walkNodes_pres compile cfg sc tid rest values (partIndex + 1)
                    partDelta disableUntil (index + 1) st3
                  have hA3 : ExtPresA st st3 :=
                    (setPartIndex_presA st tid partIndex _).compA hevP.1
                  refine ⟨hA3.compA hrest.1, ?_⟩
                  intro hinv hsf hcf hfree hd hdu
                  subst hd
                  have hnew : (if index + 1 < disableUntil then (-1 : Int)
                      else p.index + 0) = p.index := by
                    rw [if_neg (by omega)]
                    omega
                  rw [hnew] at hevP
                  have hA2 : ExtPresA st (setPartIndex st tid partIndex p.index) :=
                    setPartIndex_presA st tid partIndex _
                  have hB2 : ExtPresB st (setPartIndex st tid partIndex p.index) :=
                    setPartIndex_presB st tid partIndex p hget hsf
                  have hBv : ExtPresB (setPartIndex st tid partIndex p.index) st3 :=
                    hevP.2 (hA2.inv hinv) hB2.hsf hcf
                  have hB3 : ExtPresB st st3 := ExtPresB.compB hA2 hB2 hBv
                  have hrB : ExtPresB st3 (walkNodes compile cfg sc tid rest values
                      (partIndex + 1) 0 disableUntil (index + 1) st3).2 :=
                    hrest.2 (hA3.inv hinv) hB3.hsf hcf
                      (fun m hm => hfree m (by simp [hm])) (by rfl) (by omega)
                  exact ExtPresB.compB hA3 hB3 hrB
            next hpi =>
              have hrest := walkNodes_pres compile cfg sc tid rest values partIndex
                partDelta disableUntil (index + 1) st
              refine ⟨hrest.1, ?_⟩
              intro hinv hsf hcf hfree hd hdu
              exact hrest.2 hinv hsf hcf (fun m hm => hfree m (by simp [hm])) hd (by omega)
          next hget =>
            simp only [hst, Bool.false_eq_true, if_false] at hget ⊢
            have hrest := walkNodes_pres compile cfg sc tid rest values partIndex
              partDelta disableUntil (index + 1) st
            refine ⟨hrest.1, ?_⟩
            intro hinv hsf hcf hfree hd hdu
            exact hrest.2 hinv hsf hcf (fun m hm => hfree m (by simp [hm])) hd (by omega)
termination_by (sizeOf values, nodes.length)
decreasing_by
  all_goals first
    | (apply Prod.Lex.right
       simp)
    | (apply Prod.Lex.left
       exact List.sizeOf_lt_of_mem (List.get?_mem (by assumption)))

theorem extractStylesFromValue_pres (compile : Compile) (cfg : ShadyCfg)
    (sc : String) (v : Value) (st : St) :
    ExtPresA st (extractStylesFromValue compile cfg sc v st).2
    ∧ (CacheInv st → heapStyleFree st → compileStyleFree compile →
        ExtPresB st (extractStylesFromValue compile cfg sc v st).2) := by
  match v with
  | .tmpl r =>
      simp only [extractStylesFromValue]
      exact extractStylesFromTemplate_pres compile cfg sc r st
  | .arr items =>
      simp only [extractStylesFromValue]
      exact extractStylesFromValues_pres compile cfg sc items st
  | .str s =>
      simp only [extractStylesFromValue]
      exact ⟨ExtPresA.idA st, fun _ hsf _ => ExtPresB.idB st hsf⟩
  | .scalar =>
      simp only [extractStylesFromValue]
      exact ⟨ExtPresA.idA st, fun _ hsf _ => ExtPresB.idB st hsf⟩
  | .nullV =>
      simp only [extractStylesFromValue]
      exact ⟨ExtPresA.idA st, fun _ hsf _ => ExtPresB.idB st hsf⟩
  | .undef =>
      simp only [extractStylesFromValue]
      exact ⟨ExtPresA.idA st, fun _ hsf _ => ExtPresB.idB st hsf⟩
termination_by (sizeOf v, 0)
decreasing_by
  · apply Prod.Lex.left
    simp only [Value.tmpl.sizeOf_spec]
    omega
  · apply Prod.Lex.left
    simp only [Value.arr.sizeOf_spec]
    omega

theorem extractStylesFromValues_pres (compile : Compile) (cfg : ShadyCfg)
    (sc : String) (items : List Value) (st : St) :
    ExtPresA st (extractStylesFromValues compile cfg sc items st).2
    ∧ (CacheInv st → heapStyleFree st → compileStyleFree compile →
        ExtPresB st (extractStylesFromValues compile cfg sc items st).2) := by
  match items with
  | [] =>
      simp only [extractStylesFromValues]
      exact ⟨ExtPresA.idA st, fun _ hsf _ => ExtPresB.idB st hsf⟩
  | v :: rest =>
      simp only [extractStylesFromValues]
      have hvP := extractStylesFromValue_pres compile cfg sc v st
      split
      next e2 st1 hev =>
          rw [hev] at hvP
          exact hvP
      next st1 hev =>
          rw [hev] at hvP
          have hrest := extractStylesFromValues_pres compile cfg sc rest st1
          refine ⟨hvP.1.compA hrest.1, ?_⟩
          intro hinv hsf hcf
          have hB1 := hvP.2 hinv hsf hcf
          have hB2 := hrest.2 (hvP.1.inv hinv) hB1.hsf hcf
          exact ExtPresB.compB hvP.1 hB1 hB2
termination_by (sizeOf items, 0)
decreasing_by
  · apply Prod.Lex.left
    simp only [List.cons.sizeOf_spec]
    omega
  · apply Prod.Lex.left
    simp only [List.cons.sizeOf_spec]
    omega

end

/-! ### Pure characterization of the walk over a single template -/

theorem extractStylesFromValue_simple (compile : Compile) (cfg : ShadyCfg)
    (sc : String) (v : Value) (st : St) (h : isSimpleValue v = true) :
    extractStylesFromValue compile cfg sc v st = (none, st) := by
  match v with
  | .str s => simp [extractStylesFromValue]
  | .scalar => simp [extractStylesFromValue]
  | .tmpl r => simp [isSimpleValue] at h
  | .arr items => simp [isSimpleValue] at h
  | .nullV => simp [isSimpleValue] at h
  | .undef => simp [isSimpleValue] at h

theorem partsMap_mk_index : ∀ (l : List Part), l.map (fun p => (⟨p.index⟩ : Part)) = l
  | [] => rfl
  | p :: rest => by rw [List.map_cons, partsMap_mk_index rest]

theorem take_set_succ : ∀ (P : List Part) (k : Nat) (a : Part), k < P.length →
    (P.set k a).take (k + 1) = P.take k ++ [a]
  | [], k, a, h => by simp at h
  | p :: rest, 0, a, _ => by simp
  | p :: rest, k + 1, a, h => by
      simp only [List.set_cons_succ, List.take_cons, List.take_succ_cons]
      rw [take_set_succ rest k a (by simpa using h)]
      rfl

theorem drop_set_succ : ∀ (P : List Part) (k : Nat) (a : Part),
    (P.set k a).drop (k + 1) = P.drop (k + 1)
  | [], _, _ => by simp
  | p :: rest, 0, a => by simp
  | p :: rest, k + 1, a => by
      simp only [List.set_cons_succ, List.drop_succ_cons]
      exact drop_set_succ rest k a

/-- Characterization of the walk over one template whose dynamic values are
all simple (no nested templates, no iterables, no nullish values): the walk
completes normally and rewrites exactly the parts from the cursor position
on, each part index through the pure mirror reindexFun; parts before the
cursor are untouched. -/
theorem walkNodes_characterization (compile : Compile) (cfg : ShadyCfg) (sc : String)
    (tid : Nat) (nodes : List DomNode) (values : List Value) (partIndex : Nat)
    (partDelta disableUntil index : Int) (st : St)
    (hmono : ∀ j k pj pk, partIndex ≤ j → j < k →
        (st.heap tid).parts.get? j = some pj → (st.heap tid).parts.get? k = some pk →
        pj.index < pk.index)
    (hlow : ∀ k pk, partIndex ≤ k → (st.heap tid).parts.get? k = some pk →
        index < pk.index)
    (hvals : ∀ k, partIndex ≤ k → k < (st.heap tid).parts.length →
        ∃ v, values.get? k = some v ∧ isSimpleValue v = true) :
    (walkNodes compile cfg sc tid nodes values partIndex partDelta disableUntil index st).1
      = none
    ∧ ((walkNodes compile cfg sc tid nodes values partIndex
          partDelta disableUntil index st).2.heap tid).parts
        = (st.heap tid).parts.take partIndex
          ++ ((st.heap tid).parts.drop partIndex).map
              (fun p => ⟨reindexFun nodes partDelta disableUntil index p.index⟩) := by
  match nodes with
  | [] =>
      refine ⟨by simp [walkNodes], ?_⟩
      simp only [walkNodes, reindexFun]
      rw [partsMap_mk_index, List.take_append_drop]
  | n :: rest =>
      have hheap1 : ((if isStyleNode n = true
          then { st with sink := st.sink ++ [n] } else st : St)).heap = st.heap := by
        split <;> rfl
      simp only [walkNodes]
      split
      next p hget =>
        rw [hheap1] at hget
        obtain ⟨hkl, hpe⟩ := List.get?_eq_some.mp hget
        split
        next hpi =>
          obtain ⟨v, hv, hsimple⟩ := hvals partIndex (le_refl _) hkl
          split
          next hv2 =>
            rw [hv] at hv2
            cases hv2
          next v2 hv2 =>
            rw [hv] at hv2
            injection hv2 with hv2e
            subst hv2e
            rw [extractStylesFromValue_simple compile cfg sc v _ hsimple]
            have hP2 : ((setPartIndex
                (if isStyleNode n = true then { st with sink := st.sink ++ [n] } else st)
                tid partIndex
                (if index + 1 <
                    (if isStyleNode n = true
                     then index + 1 + ((n.children.length : Int) + 1) else disableUntil)
                 then -1
                 else p.index +
                    (if isStyleNode n = true
                     then partDelta - ((n.children.length : Int) + 1) else partDelta))).heap
                  tid).parts
                = (st.heap tid).parts.set partIndex
                    ⟨if index + 1 <
                        (if isStyleNode n = true
                         then index + 1 + ((n.children.length : Int) + 1) else disableUntil)
                      then -1
                      else p.index +
                        (if isStyleNode n = true
                         then partDelta - ((n.children.length : Int) + 1) else partDelta)⟩ := by
              simp only [setPartIndex, Function.update, hheap1]
              simp
            have hset_ne : ∀ (a : Part) (jj : Nat), partIndex ≠ jj →
                ((st.heap tid).parts.set partIndex a).get? jj
                  = (st.heap tid).parts.get? jj := by
              intro a jj hne
              rw [List.get?_set]
              exact if_neg hne
            have hIH := walkNodes_characterization compile cfg sc tid rest values
              (partIndex + 1)
              (if isStyleNode n = true
               then partDelta - ((n.children.length : Int) + 1) else partDelta)
              (if isStyleNode n = true
               then index + 1 + ((n.children.length : Int) + 1) else disableUntil)
              (index + 1)
              (setPartIndex
                (if isStyleNode n = true then { st with sink := st.sink ++ [n] } else st)
                tid partIndex
                (if index + 1 <
                    (if isStyleNode n = true
                     then index + 1 + ((n.children.length : Int) + 1) else disableUntil)
                 then -1
                 else p.index +
                    (if isStyleNode n = true
                     then partDelta - ((n.children.length : Int) + 1) else partDelta)))
              (by
                intro j k pj pk hj hjk h1 h2
                rw [hP2, hset_ne _ j (by omega)] at h1
                rw [hP2, hset_ne _ k (by omega)] at h2
                exact hmono j k pj pk (by omega) hjk h1 h2)
              (by
                intro k pk hk h1
                rw [hP2, hset_ne _ k (by omega)] at h1
                have := hmono partIndex k p pk (le_refl _) (by omega) hget h1
                omega)
              (by
                intro k hk hkl2
                rw [hP2, List.length_set] at hkl2
                exact hvals k (by omega) hkl2)
            refine ⟨hIH.1, ?_⟩
            rw [hIH.2, hP2]
            rw [take_set_succ _ _ _ hkl, drop_set_succ]
            rw [List.drop_eq_getElem_cons hkl, List.map_cons]
            have hhead : reindexFun (n :: rest) partDelta disableUntil index
                ((st.heap tid).parts[partIndex]).index
                = (if index + 1 <
                      (if isStyleNode n = true
                       then index + 1 + ((n.children.length : Int) + 1) else disableUntil)
                   then -1
                   else p.index +
                      (if isStyleNode n = true
                       then partDelta - ((n.children.length : Int) + 1) else partDelta)) := by
              have hpx : ((st.heap tid).parts[partIndex]).index = p.index := by
                rw [← hpe]
                rfl
              rw [hpx]
              simp only [reindexFun]
              rw [if_pos hpi]
            have htail : ((st.heap tid).parts.drop (partIndex + 1)).map
                  (fun q => (⟨reindexFun rest
                    (if isStyleNode n = true
                     then partDelta - ((n.children.length : Int) + 1) else partDelta)
                    (if isStyleNode n = true
                     then index + 1 + ((n.children.length : Int) + 1) else disableUntil)
                    (index + 1) q.index⟩ : Part))
                = ((st.heap tid).parts.drop (partIndex + 1)).map
                    (fun q => ⟨reindexFun (n :: rest) partDelta disableUntil index q.index⟩) := by
              apply List.map_congr_left
              intro q hq
              obtain ⟨i, hi, hqe⟩ := List.mem_iff_getElem.mp hq
              rw [List.getElem_drop] at hqe
              have hq2 : (st.heap tid).parts.get? (partIndex + 1 + i) = some q := by
                rw [List.get?_eq_getElem?, List.getElem?_eq_getElem (by
                  have := hi
                  simp only [List.length_drop] at this
                  omega)]
                rw [hqe]
              have hlt : p.index < q.index :=
                hmono partIndex (partIndex + 1 + i) p q (le_refl _) (by omega) hget hq2
              have hne : ¬(q.index = index + 1) := by omega
              simp only [reindexFun]
              rw [if_neg hne]
            rw [htail, hhead]
            simp [List.append_assoc]
        next hpi =>
          have hIH := walkNodes_characterization compile cfg sc tid rest values partIndex
            (if isStyleNode n = true
             then partDelta - ((n.children.length : Int) + 1) else partDelta)
            (if isStyleNode n = true
             then index + 1 + ((n.children.length : Int) + 1) else disableUntil)
            (index + 1)
            (if isStyleNode n = true then { st with sink := st.sink ++ [n] } else st)
            (by
              intro j k pj pk hj hjk h1 h2
              rw [hheap1] at h1 h2
              exact hmono j k pj pk hj hjk h1 h2)
            (by
              intro k pk hk h1
              rw [hheap1] at h1
              rcases Nat.eq_or_lt_of_le hk with he | hlt2
              · rw [← he, hget] at h1
                injection h1 with h1e
                subst h1e
                have hp0 := hlow partIndex p (le_refl _) hget
                omega
              · have h3 := hmono partIndex k p pk (le_refl _) hlt2 hget h1
                have hp0 := hlow partIndex p (le_refl _) hget
                omega)
            (by
              intro k hk hkl2
              rw [hheap1] at hkl2
              exact hvals k hk hkl2)
          refine ⟨hIH.1, ?_⟩
          rw [hIH.2]
          rw [hheap1]
          apply congrArg
          apply List.map_congr_left
          intro q hq
          obtain ⟨i, hi, hqe⟩ := List.mem_iff_getElem.mp hq
          rw [List.getElem_drop] at hqe
          have hq2 : (st.heap tid).parts.get? (partIndex + i) = some q := by
            rw [List.get?_eq_getElem?, List.getElem?_eq_getElem (by
              have := hi
              simp only [List.length_drop] at this
              omega)]
            rw [hqe]
          have hne : ¬(q.index = index + 1) := by
            rcases Nat.eq_zero_or_pos i with hz | hpos
            · subst hz
              have : (st.heap tid).parts.get? partIndex = some q := by
                simpa using hq2
              rw [hget] at this
              injection this with he
              subst he
              exact hpi
            · have hlt2 : p.index < q.index :=
                hmono partIndex (partIndex + i) p q (le_refl _) (by omega) hget hq2
              have hp0 := hlow partIndex p (le_refl _) hget
              have hne2 : ¬(p.index = index + 1) := hpi
              omega
          simp only [reindexFun]
          rw [if_neg hne]
      next hget =>
        rw [hheap1] at hget
        have hlen : (st.heap tid).parts.length ≤ partIndex := by
          by_contra hcon
          push_neg at hcon
          rw [List.get?_eq_getElem?, List.getElem?_eq_getElem hcon] at hget
          cases hget
        have hIH := walkNodes_characterization compile cfg sc tid rest values partIndex
          (if isStyleNode n = true
           then partDelta - ((n.children.length : Int) + 1) else partDelta)
          (if isStyleNode n = true
           then index + 1 + ((n.children.length : Int) + 1) else disableUntil)
          (index + 1)
          (if isStyleNode n = true then { st with sink := st.sink ++ [n] } else st)
          (by
            intro j k pj pk hj hjk h1 h2
            rw [hheap1] at h1 h2
            exact hmono j k pj pk hj hjk h1 h2)
          (by
            intro k pk hk h1
            rw [hheap1] at h1
            have : (st.heap tid).parts.get? k = none := by
              rw [List.get?_eq_getElem?, List.getElem?_eq_none]
              omega
            rw [this] at h1
            cases h1)
          (by
            intro k hk hkl2
            rw [hheap1] at hkl2
            omega)
        refine ⟨hIH.1, ?_⟩
        rw [hIH.2]
        rw [hheap1]
        have hdrop : (st.heap tid).parts.drop partIndex = [] :=
          List.drop_eq_nil_of_le hlen
        rw [hdrop]
        simp

/-- Characterization of extractStylesFromTemplate on a cached template with
strictly increasing non-negative part indices and simple dynamic values:
extraction completes normally and maps every part index through the pure
mirror reindexFun over the document-order traversal of the content. -/
theorem extractStylesFromTemplate_single (compile : Compile) (cfg : ShadyCfg)
    (sc ty : String) (sid : Nat) (vals : List Value) (st : St)
    (m : Nat → Option Nat) (tid : Nat)
    (hc : st.caches (ty ++ "--" ++ sc) = some m) (hcs : m sid = some tid)
    (hmono : ∀ j k pj pk, j < k → (st.heap tid).parts.get? j = some pj →
        (st.heap tid).parts.get? k = some pk → pj.index < pk.index)
    (hlow : ∀ k pk, (st.heap tid).parts.get? k = some pk → 0 ≤ pk.index)
    (hvals : ∀ k, k < (st.heap tid).parts.length →
        ∃ v, vals.get? k = some v ∧ isSimpleValue v = true) :
    (extractStylesFromTemplate compile cfg sc (.mk ty sid vals) st).1 = none
    ∧ ((extractStylesFromTemplate compile cfg sc (.mk ty sid vals) st).2.heap tid).parts
        = (st.heap tid).parts.map
            (fun p => ⟨reindexFun (flattenForest (st.heap tid).content) 0 0 (-1) p.index⟩) := by
  have hhit : shadyTemplateFactory compile cfg sc (.mk ty sid vals) st = (tid, st) :=
    shadyTemplateFactory_hit compile cfg sc (.mk ty sid vals) st m tid hc hcs
  have hchar := walkNodes_characterization compile cfg sc tid
    (flattenForest (st.heap tid).content) vals 0 0 0 (-1) st
    (fun j k pj pk _ hjk h1 h2 => hmono j k pj pk hjk h1 h2)
    (fun k pk _ h1 => by have := hlow k pk h1; omega)
    (fun k _ hk => hvals k hk)
  simp only [extractStylesFromTemplate, hhit]
  split
  next e2 st2 hwalk =>
      rw [hwalk] at hchar
      simp at hchar
  next st2 hwalk =>
      rw [hwalk] at hchar
      refine ⟨rfl, ?_⟩
      have h2 := hchar.2
      simp only [List.take_zero, List.drop_zero, List.nil_append] at h2
      show ((Function.update st2.heap tid
          { content := removeStyleNodes (st2.heap tid).content,
            parts := (st2.heap tid).parts }) tid).parts = _
      rw [Function.update_same]
      exact h2

theorem styleScan_no_style : ∀ (as : List DomNode) (pd du idx : Int),
    (∀ n ∈ as, isStyleNode n = false) → styleScan as pd du idx = (pd, du)
  | [], pd, du, idx, _ => rfl
  | a :: as2, pd, du, idx, h => by
      have ha := h a (by simp)
      simp only [styleScan, ha, Bool.false_eq_true, if_false]
      exact styleScan_no_style as2 pd du (idx + 1) (fun n hn => h n (by simp [hn]))

theorem styleScan_du : ∀ (as : List DomNode) (s : Nat) (pd du idx : Int)
    (hs : s < as.length), isStyleNode as[s] = true →
    (∀ j, s < j → (hj : j < as.length) → isStyleNode as[j] = false) →
    (styleScan as pd du idx).2 = idx + 1 + s + ((as[s].children.length : Int) + 1)
  | [], s, pd, du, idx, hs, _, _ => by simp at hs
  | a :: as2, 0, pd, du, idx, hs, hstyle, hnone => by
      simp only [List.getElem_cons_zero] at hstyle ⊢
      simp only [styleScan, hstyle, if_true]
      rw [styleScan_no_style as2 _ _ (idx + 1) (fun n hn => by
        obtain ⟨i, hi, he⟩ := List.mem_iff_getElem.mp hn
        have := hnone (i + 1) (by omega) (by simpa using Nat.succ_lt_succ hi)
        rw [List.getElem_cons_succ] at this
        rw [← he]
        exact this)]
      push_cast
      ring
  | a :: as2, s + 1, pd, du, idx, hs, hstyle, hnone => by
      simp only [List.getElem_cons_succ] at hstyle ⊢
      simp only [styleScan]
      rw [styleScan_du as2 s _ _ (idx + 1) (by simpa using Nat.lt_of_succ_lt_succ hs) hstyle
        (fun j hj hj2 => by
          have := hnone (j + 1) (by omega) (by simpa using Nat.succ_lt_succ hj2)
          rw [List.getElem_cons_succ] at this
          exact this)]
      push_cast
      ring

theorem styleScan_pd : ∀ (as : List DomNode) (s : Nat) (pd du idx : Int)
    (hs : s < as.length), isStyleNode as[s] = true →
    (∀ j (hj : j < as.length), j ≠ s → isStyleNode as[j] = false) →
    (styleScan as pd du idx).1 = pd - ((as[s].children.length : Int) + 1)
  | [], s, pd, du, idx, hs, _, _ => by simp at hs
  | a :: as2, 0, pd, du, idx, hs, hstyle, hnone => by
      simp only [List.getElem_cons_zero] at hstyle ⊢
      simp only [styleScan, hstyle, if_true]
      rw [(styleScan_no_style as2 _ _ (idx + 1) (fun n hn => by
        obtain ⟨i, hi, he⟩ := List.mem_iff_getElem.mp hn
        have := hnone (i + 1) (by simpa using Nat.succ_lt_succ hi) (by omega)
        rw [List.getElem_cons_succ] at this
        rw [← he]
        exact this))]
  | a :: as2, s + 1, pd, du, idx, hs, hstyle, hnone => by
      simp only [List.getElem_cons_succ] at hstyle ⊢
      have ha : isStyleNode a = false := by
        have := hnone 0 (by omega) (by omega)
        simpa using this
      simp only [styleScan, ha, Bool.false_eq_true, if_false]
      exact styleScan_pd as2 s pd du (idx + 1)
        (by simpa using Nat.lt_of_succ_lt_succ hs) hstyle
        (fun j hj hjne => by
          have := hnone (j + 1) (by simpa using Nat.succ_lt_succ hj) (by omega)
          rw [List.getElem_cons_succ] at this
          exact this)

theorem reindexFun_front : ∀ (as bs : List DomNode) (pd du idx i : Int),
    idx + as.length < i →
    reindexFun (as ++ bs) pd du idx i
      = reindexFun bs (styleScan as pd du idx).1 (styleScan as pd du idx).2
          (idx + as.length) i
  | [], bs, pd, du, idx, i, h => by simp [styleScan]
  | a :: as2, bs, pd, du, idx, i, h => by
      have hne : ¬(i = idx + 1) := by
        have : (0:Int) ≤ (as2.length : Int) := by positivity
        simp only [List.length_cons] at h
        push_cast at h
        omega
      simp only [List.cons_append, reindexFun, styleScan, List.append_eq]
      rw [if_neg hne]
      rw [reindexFun_front as2 bs _ _ (idx + 1) i (by
        simp only [List.length_cons] at h
        push_cast at h ⊢
        omega)]
      have : idx + 1 + (as2.length : Int) = idx + ((a :: as2).length : Int) := by
        simp
        push_cast
        ring
      rw [this]

theorem reindexFun_at (n : DomNode) (rest : List DomNode) (pd du idx : Int) :
    reindexFun (n :: rest) pd du idx (idx + 1)
      = (if idx + 1 <
            (if isStyleNode n then idx + 1 + ((n.children.length : Int) + 1) else du)
         then -1
         else (idx + 1) +
            (if isStyleNode n then pd - ((n.children.length : Int) + 1) else pd)) := by
  simp only [reindexFun, if_pos rfl]
  simp only [if_true]

theorem reindexFun_split (flat : List DomNode) (i : Nat) (hi : i < flat.length) :
    reindexFun flat 0 0 (-1) (i : Int)
      = reindexFun (flat[i] :: flat.drop (i + 1))
          (styleScan (flat.take i) 0 0 (-1)).1
          (styleScan (flat.take i) 0 0 (-1)).2 ((i : Int) - 1) (i : Int) := by
  have hlen : (flat.take i).length = i := by
    simp [List.length_take]
    omega
  have h1 : reindexFun flat 0 0 (-1) (i : Int)
      = reindexFun (flat.drop i) (styleScan (flat.take i) 0 0 (-1)).1
          (styleScan (flat.take i) 0 0 (-1)).2 ((-1) + ((flat.take i).length : Int))
          (i : Int) := by
    conv_lhs => rw [← List.take_append_drop i flat]
    apply reindexFun_front
    rw [hlen]
    omega
  rw [h1, List.drop_eq_getElem_cons hi, hlen]
  have he : (-1 : Int) + (i : Int) = (i : Int) - 1 := by ring
  rw [he]

theorem reindexFun_disabled (flat : List DomNode) (s i : Nat)
    (hs : s < flat.length) (hi : i < flat.length)
    (hstyle : isStyleNode flat[s] = true)
    (hsi : s ≤ i)
    (hrange : (i : Int) < (s : Int) + ((flat[s].children.length : Int) + 1))
    (hnostyle : ∀ j (hj : j < flat.length), s < j → j ≤ i → isStyleNode flat[j] = false) :
    reindexFun flat 0 0 (-1) (i : Int) = -1 := by
  rw [reindexFun_split flat i hi]
  have h2 := reindexFun_at flat[i] (flat.drop (i + 1))
    (styleScan (flat.take i) 0 0 (-1)).1 (styleScan (flat.take i) 0 0 (-1)).2
    ((i : Int) - 1)
  have he : (i : Int) - 1 + 1 = (i : Int) := by ring
  rw [he] at h2
  rw [h2]
  have hlen : (flat.take i).length = i := by
    simp [List.length_take]
    omega
  rcases Nat.eq_or_lt_of_le hsi with hcase | hcase
  · have hieq : flat[i] = flat[s] := by
      congr 1
      omega
    rw [hieq, hstyle]
    simp only [if_true]
    rw [if_pos (by omega)]
  · have hns : isStyleNode flat[i] = false := hnostyle i hi hcase (le_refl _)
    rw [hns]
    simp only [Bool.false_eq_true, if_false]
    have hdu := styleScan_du (flat.take i) s 0 0 (-1) (by omega)
      (by simpa [List.getElem_take] using hstyle)
      (fun j hj hj2 => by
        rw [hlen] at hj2
        simp only [List.getElem_take]
        exact hnostyle j (by omega) hj (by omega))
    simp only [List.getElem_take] at hdu
    rw [hdu]
    rw [if_pos (by omega)]

theorem reindexFun_boundary (flat : List DomNode) (s i : Nat)
    (hs : s < flat.length) (hi : i < flat.length)
    (hstyle : isStyleNode flat[s] = true)
    (hsingle : ∀ j (hj : j < flat.length), j ≠ s → isStyleNode flat[j] = false)
    (hb : (i : Int) = (s : Int) + ((flat[s].children.length : Int) + 1)) :
    reindexFun flat 0 0 (-1) (i : Int)
      = (i : Int) - ((flat[s].children.length : Int) + 1) := by
  rw [reindexFun_split flat i hi]
  have h2 := reindexFun_at flat[i] (flat.drop (i + 1))
    (styleScan (flat.take i) 0 0 (-1)).1 (styleScan (flat.take i) 0 0 (-1)).2
    ((i : Int) - 1)
  have he : (i : Int) - 1 + 1 = (i : Int) := by ring
  rw [he] at h2
  rw [h2]
  have hlen : (flat.take i).length = i := by
    simp [List.length_take]
    omega
  have hne : i ≠ s := by omega
  have hns : isStyleNode flat[i] = false := hsingle i hi hne
  rw [hns]
  simp only [Bool.false_eq_true, if_false]
  have hdu := styleScan_du (flat.take i) s 0 0 (-1) (by omega)
    (by simpa [List.getElem_take] using hstyle)
    (fun j hj hj2 => by
      rw [hlen] at hj2
      simp only [List.getElem_take]
      exact hsingle j (by omega) (by omega))
  have hpd := styleScan_pd (flat.take i) s 0 0 (-1) (by omega)
    (by simpa [List.getElem_take] using hstyle)
    (fun j hj2 hjne => by
      rw [hlen] at hj2
      simp only [List.getElem_take]
      exact hsingle j (by omega) hjne)
  simp only [List.getElem_take] at hdu hpd
  rw [hdu, hpd]
  rw [if_neg (by omega)]
  omega

/-! ### Claim theorems: disable range of the style extractor -/

/-- Bridge from the decidable hypothesis style used by the claim theorems
to the characterization lemma. -/
theorem extract_single_of_pairwise (compile : Compile) (cfg : ShadyCfg)
    (sc ty : String) (sid : Nat) (vals : List Value) (st : St)
    (m : Nat → Option Nat) (tid : Nat)
    (hc : st.caches (ty ++ "--" ++ sc) = some m) (hcs : m sid = some tid)
    (hmono : (st.heap tid).parts.Pairwise (fun a b => a.index < b.index))
    (hlow : ∀ p ∈ (st.heap tid).parts, 0 ≤ p.index)
    (hlen : (st.heap tid).parts.length ≤ vals.length)
    (hsimple : ∀ v ∈ vals, isSimpleValue v = true) :
    (extractStylesFromTemplate compile cfg sc (.mk ty sid vals) st).1 = none
    ∧ ((extractStylesFromTemplate compile cfg sc (.mk ty sid vals) st).2.heap tid).parts
        = (st.heap tid).parts.map
            (fun p => ⟨reindexFun (flattenForest (st.heap tid).content) 0 0 (-1) p.index⟩) := by
  apply extractStylesFromTemplate_single compile cfg sc ty sid vals st m tid hc hcs
  · intro j k pj pk hjk h1 h2
    obtain ⟨hj1, he1⟩ := List.get?_eq_some.mp h1
    obtain ⟨hk1, he2⟩ := List.get?_eq_some.mp h2
    have := (List.pairwise_iff_getElem.mp hmono) j k hj1 hk1 hjk
    rw [List.get_eq_getElem] at he1 he2
    rw [he1, he2] at this
    exact this
  · intro k pk h1
    exact hlow pk (List.get?_mem h1)
  · intro k hk
    have hkv : k < vals.length := by omega
    refine ⟨vals.get ⟨k, hkv⟩, ?_, hsimple _ (List.get_mem vals k hkv)⟩
    rw [List.get?_eq_getElem?, List.getElem?_eq_getElem hkv, List.get_eq_getElem]

/-- Claim C2 (code bug evaluation): extractStylesFromValue applied to the
JavaScript null or undefined value raises a TypeError - the sequence test
evaluates the iterator property of a nullish value - while character
strings and non-iterable scalars are ignored with the state unchanged. -/
theorem extractStylesFromValue_nullish_throws :
    extractStylesFromValue compile0 cfg0 "x" .nullV initSt = (some .typeError, initSt)
  ∧ extractStylesFromValue compile0 cfg0 "x" .undef initSt = (some .typeError, initSt)
  ∧ extractStylesFromValue compile0 cfg0 "x" (.str "abc") initSt = (none, initSt)
  ∧ extractStylesFromValue compile0 cfg0 "x" .scalar initSt = (none, initSt) := by
  refine ⟨?_, ?_, ?_, ?_⟩ <;> simp [extractStylesFromValue]

/-- Claim C3 (code bug evaluation): on a template with one style element
(one text child, so removeCount = 2) before a node carrying two
BindingPoints tied at index 3, extraction rewrites only the first one to
3 - 2 = 1; the second survives untouched at 3, violating the stated
invariant that every surviving BindingPoint equals originalIndex -
(1 + styleChildCount) - the cursor advance is an if, not a loop, so parts
do not stay in sync. -/
theorem extract_tied_parts_left_out_of_sync :
    (extractStylesFromTemplate compile0 cfg0 "c3"
        (.mk "html" 13 [.scalar, .scalar]) stC3c).1 = none
  ∧ ((extractStylesFromTemplate compile0 cfg0 "c3"
        (.mk "html" 13 [.scalar, .scalar]) stC3c).2.heap 0).parts = [⟨1⟩, ⟨3⟩]
  ∧ (3 : Int) ≠ -1 ∧ (3 : Int) ≠ 3 - (1 + 1) := by
  refine ⟨?_, ?_, by decide, by decide⟩ <;>
    simp [extractStylesFromTemplate, shadyTemplateFactory, stC3c, singleTemplateSt,
      tmplC3c, Function.update, walkNodes, flattenForest, flattenNode, isStyleNode,
      setPartIndex, extractStylesFromValue, removeStyleNodes, DomNode.children,
      TemplateResult.type, TemplateResult.stringsId]

/-- Claim C4 counterexample: with two BindingPoints tied at the traversal
position of the removed style element itself (two bound attributes on the
style tag), the source disables only the first; the second keeps index 0,
not -1, because the per-node part-cursor advance is an if, not a loop. -/
theorem extract_tied_part_in_style_range_not_disabled :
    (extractStylesFromTemplate compile0 cfg0 "c4"
        (.mk "html" 14 [.scalar, .scalar]) stC4c).1 = none
  ∧ ((extractStylesFromTemplate compile0 cfg0 "c4"
        (.mk "html" 14 [.scalar, .scalar]) stC4c).2.heap 0).parts = [⟨-1⟩, ⟨0⟩]
  ∧ (0 : Int) ≠ -1 := by
  refine ⟨?_, ?_, by decide⟩ <;>
    simp [extractStylesFromTemplate, shadyTemplateFactory, stC4c, singleTemplateSt,
      tmplC4c, Function.update, walkNodes, flattenForest, flattenNode, isStyleNode,
      setPartIndex, extractStylesFromValue, removeStyleNodes, DomNode.children,
      TemplateResult.type, TemplateResult.stringsId]

/-- Claim C4 (amended): for every compiled, cached template with strictly
increasing, non-negative BindingPoint indices (so every BindingPoint is
reached by the part cursor - tied indices are excluded, see the
counterexample) and simple dynamic values, every BindingPoint whose
recorded index equals a traversal position in the half-open range starting
at a style element position s and spanning 1 + its immediate child count,
with no further style element strictly between s and that position, has
its index set to exactly -1 by extraction. -/
theorem extract_part_in_removed_style_range_disabled
    (compile : Compile) (cfg : ShadyCfg) (sc ty : String) (sid : Nat)
    (vals : List Value) (st : St) (m : Nat → Option Nat) (tid : Nat) (s i k : Nat)
    (hc : st.caches (ty ++ "--" ++ sc) = some m) (hcs : m sid = some tid)
    (hmono : (st.heap tid).parts.Pairwise (fun a b => a.index < b.index))
    (hlow : ∀ p ∈ (st.heap tid).parts, 0 ≤ p.index)
    (hlen : (st.heap tid).parts.length ≤ vals.length)
    (hsimple : ∀ v ∈ vals, isSimpleValue v = true)
    (hs : s < (flattenForest (st.heap tid).content).length)
    (hi : i < (flattenForest (st.heap tid).content).length)
    (hstyle : isStyleNode (flattenForest (st.heap tid).content)[s] = true)
    (hsi : s ≤ i)
    (hrange : (i : Int) < (s : Int)
        + (((flattenForest (st.heap tid).content)[s].children.length : Int) + 1))
    (hnostyle : ∀ j (hj : j < (flattenForest (st.heap tid).content).length),
        s < j → j ≤ i → isStyleNode (flattenForest (st.heap tid).content)[j] = false)
    (hk : k < (st.heap tid).parts.length)
    (hpidx : ((st.heap tid).parts.get ⟨k, hk⟩).index = (i : Int)) :
    ((extractStylesFromTemplate compile cfg sc (.mk ty sid vals) st).2.heap tid).parts.get? k
      = some ⟨-1⟩ := by
  have hX := extract_single_of_pairwise compile cfg sc ty sid vals st m tid hc hcs
    hmono hlow hlen hsimple
  rw [hX.2, List.get?_map, List.get?_eq_getElem?, List.getElem?_eq_getElem hk]
  rw [List.get_eq_getElem] at hpidx
  simp only [Option.map_some']
  rw [hpidx, reindexFun_disabled _ s i hs hi hstyle hsi hrange hnostyle]

theorem extract_part_in_removed_style_range_disabled_witness :
    ((extractStylesFromTemplate compile0 cfg0 "w4"
        (.mk "html" 4 [.str "a"]) stC4w).2.heap 0).parts.get? 0 = some ⟨-1⟩ :=
  extract_part_in_removed_style_range_disabled compile0 cfg0 "w4" "html" 4
    [.str "a"] stC4w (Function.update (fun _ => none) 4 (some 0)) 0 0 1 0
    (by simp [stC4w, singleTemplateSt, Function.update])
    (by simp [Function.update])
    (by simp [stC4w, singleTemplateSt, Function.update, tmplC4w])
    (by simp [stC4w, singleTemplateSt, Function.update, tmplC4w])
    (by simp [stC4w, singleTemplateSt, Function.update, tmplC4w])
    (by simp [stC4w, singleTemplateSt, Function.update, tmplC4w, isSimpleValue])
    (by simp [stC4w, singleTemplateSt, Function.update, tmplC4w,
        flattenForest, flattenNode])
    (by simp [stC4w, singleTemplateSt, Function.update, tmplC4w,
        flattenForest, flattenNode])
    (by simp [stC4w, singleTemplateSt, Function.update, tmplC4w,
        flattenForest, flattenNode, isStyleNode])
    (by omega)
    (by simp [stC4w, singleTemplateSt, Function.update, tmplC4w,
        flattenForest, flattenNode, DomNode.children])
    (by
      intro j hj h1 h2
      simp [stC4w, singleTemplateSt, Function.update, tmplC4w,
        flattenForest, flattenNode] at hj
      interval_cases j <;> simp_all [flattenForest, flattenNode, isStyleNode,
        stC4w, singleTemplateSt, Function.update, tmplC4w])
    (by simp [stC4w, singleTemplateSt, Function.update, tmplC4w])
    (by simp [stC4w, singleTemplateSt, Function.update, tmplC4w])

/-- Claim C5 counterexample: two BindingPoints tied exactly at
disableUntil = 2 (one past the removed style subtree).  The source
reindexes only the first (2 + partDelta = 0); the second is skipped by the
part cursor and keeps index 2, so it is neither reindexed by partDelta nor
disabled - the claim as stated fails for it. -/
theorem extract_tied_boundary_part_not_reindexed :
    (extractStylesFromTemplate compile0 cfg0 "c5"
        (.mk "html" 15 [.scalar, .scalar]) stC5c).1 = none
  ∧ ((extractStylesFromTemplate compile0 cfg0 "c5"
        (.mk "html" 15 [.scalar, .scalar]) stC5c).2.heap 0).parts = [⟨0⟩, ⟨2⟩]
  ∧ (2 : Int) ≠ 2 + (-2 : Int) := by
  refine ⟨?_, ?_, by decide⟩ <;>
    simp [extractStylesFromTemplate, shadyTemplateFactory, stC5c, singleTemplateSt,
      tmplC5c, Function.update, walkNodes, flattenForest, flattenNode, isStyleNode,
      setPartIndex, extractStylesFromValue, removeStyleNodes, DomNode.children,
      TemplateResult.type, TemplateResult.stringsId]

/-- Claim C5 (amended): the disable range is half-open on the right.  For a
compiled, cached template containing exactly one style element, with
strictly increasing non-negative BindingPoint indices (so the part cursor
reaches every BindingPoint - the tied case is the counterexample) and
simple dynamic values, a BindingPoint whose index equals disableUntil
exactly - the position one past the last removed slot, s + (1 + child
count) - is reindexed by adding the accumulated partDelta
(-(1 + child count)), not disabled to -1. -/
theorem extract_boundary_part_reindexed
    (compile : Compile) (cfg : ShadyCfg) (sc ty : String) (sid : Nat)
    (vals : List Value) (st : St) (m : Nat → Option Nat) (tid : Nat) (s i k : Nat)
    (hc : st.caches (ty ++ "--" ++ sc) = some m) (hcs : m sid = some tid)
    (hmono : (st.heap tid).parts.Pairwise (fun a b => a.index < b.index))
    (hlow : ∀ p ∈ (st.heap tid).parts, 0 ≤ p.index)
    (hlen : (st.heap tid).parts.length ≤ vals.length)
    (hsimple : ∀ v ∈ vals, isSimpleValue v = true)
    (hs : s < (flattenForest (st.heap tid).content).length)
    (hi : i < (flattenForest (st.heap tid).content).length)
    (hstyle : isStyleNode (flattenForest (st.heap tid).content)[s] = true)
    (hsingle : ∀ j (hj : j < (flattenForest (st.heap tid).content).length),
        j ≠ s → isStyleNode (flattenForest (st.heap tid).content)[j] = false)
    (hb : (i : Int) = (s : Int)
        + (((flattenForest (st.heap tid).content)[s].children.length : Int) + 1))
    (hk : k < (st.heap tid).parts.length)
    (hpidx : ((st.heap tid).parts.get ⟨k, hk⟩).index = (i : Int)) :
    ((extractStylesFromTemplate compile cfg sc (.mk ty sid vals) st).2.heap tid).parts.get? k
      = some ⟨(i : Int)
          + (-(((flattenForest (st.heap tid).content)[s].children.length : Int) + 1))⟩
    ∧ (i : Int)
        + (-(((flattenForest (st.heap tid).content)[s].children.length : Int) + 1)) ≠ -1 := by
  constructor
  · have hX := extract_single_of_pairwise compile cfg sc ty sid vals st m tid hc hcs
      hmono hlow hlen hsimple
    rw [hX.2, List.get?_map, List.get?_eq_getElem?, List.getElem?_eq_getElem hk]
    rw [List.get_eq_getElem] at hpidx
    simp only [Option.map_some']
    rw [hpidx, reindexFun_boundary _ s i hs hi hstyle hsingle hb, sub_eq_add_neg]
  · omega

theorem extract_boundary_part_reindexed_witness :
    ((extractStylesFromTemplate compile0 cfg0 "w5"
        (.mk "html" 5 [.str "a"]) stC5w).2.heap 0).parts.get? 0
      = some ⟨(2 : Int) + (-(((flattenForest (stC5w.heap 0).content)[0].children.length
          : Int) + 1))⟩
    ∧ ((2 : Int)
        + (-(((flattenForest (stC5w.heap 0).content)[0].children.length : Int) + 1)) ≠ -1) :=
  extract_boundary_part_reindexed compile0 cfg0 "w5" "html" 5
    [.str "a"] stC5w (Function.update (fun _ => none) 5 (some 0)) 0 0 2 0
    (by simp [stC5w, singleTemplateSt, Function.update])
    (by simp [Function.update])
    (by simp [stC5w, singleTemplateSt, Function.update, tmplC5w])
    (by simp [stC5w, singleTemplateSt, Function.update, tmplC5w])
    (by simp [stC5w, singleTemplateSt, Function.update, tmplC5w])
    (by simp [stC5w, singleTemplateSt, Function.update, tmplC5w, isSimpleValue])
    (by simp [stC5w, singleTemplateSt, Function.update, tmplC5w,
        flattenForest, flattenNode])
    (by simp [stC5w, singleTemplateSt, Function.update, tmplC5w,
        flattenForest, flattenNode])
    (by simp [stC5w, singleTemplateSt, Function.update, tmplC5w,
        flattenForest, flattenNode, isStyleNode])
    (by
      intro j hj h1
      simp [stC5w, singleTemplateSt, Function.update, tmplC5w,
        flattenForest, flattenNode] at hj
      interval_cases j <;> simp_all [flattenForest, flattenNode, isStyleNode,
        stC5w, singleTemplateSt, Function.update, tmplC5w])
    (by simp [stC5w, singleTemplateSt, Function.update, tmplC5w,
        flattenForest, flattenNode, DomNode.children])
    (by simp [stC5w, singleTemplateSt, Function.update, tmplC5w])
    (by simp [stC5w, singleTemplateSt, Function.update, tmplC5w])

/-- Claim C7: insertStyleInTemplate inserts the style element as the first
child of the template content and adds 1 + the style immediate child count
to the index of every BindingPoint whose index is non-negative, leaving
disabled (-1) BindingPoints untouched; in particular the spec example:
bindings at [2, 5, 9] plus a disabled one, with a 3-child style, become
[6, 9, 13, -1]. -/
theorem insertStyleInTemplate_spec (t : Template) (style : DomNode) :
    (insertStyleInTemplate t style).content = style :: t.content
  ∧ (insertStyleInTemplate t style).parts.map Part.index
      = t.parts.map (fun p => if 0 ≤ p.index
          then p.index + (1 + (style.children.length : Int)) else p.index)
  ∧ (insertStyleInTemplate ⟨[], [⟨2⟩, ⟨5⟩, ⟨9⟩, ⟨-1⟩]⟩
        (.element "style" [.text, .text, .text])).parts
      = [⟨6⟩, ⟨9⟩, ⟨13⟩, ⟨-1⟩] := by
  refine ⟨rfl, ?_, by decide⟩
  simp only [insertStyleInTemplate, List.map_map]
  apply List.map_congr_left
  intro p _
  by_cases h : 0 ≤ p.index
  · simp [h, ge_iff_le]
  · simp [h, ge_iff_le]

theorem cacheInv_singleTemplateSt (key : String) (sid tid : Nat) (t : Template) :
    CacheInv (singleTemplateSt key sid tid t) := by
  intro k m s t2 h1 h2
  simp only [singleTemplateSt, Function.update_apply] at h1
  split at h1
  · injection h1 with h1e
    subst h1e
    simp only [Function.update_apply] at h2
    split at h2
    · injection h2 with h2e
      simp only [singleTemplateSt]
      omega
    · cases h2
  · cases h1

theorem heapStyleFree_singleTemplateSt (key : String) (sid tid : Nat) (t : Template)
    (h : styleFreeB t.content = true) :
    heapStyleFree (singleTemplateSt key sid tid t) := by
  intro t2
  by_cases he : t2 = tid
  · simp [singleTemplateSt, Function.update_apply, he, h]
  · simp only [singleTemplateSt, Function.update_apply, he, if_false]
    exact (by decide : styleFreeB ([] : List DomNode) = true)

theorem compileStyleFree_compile0 : compileStyleFree compile0 := by
  intro r
  exact (by decide : styleFreeB ([] : List DomNode) = true)

/-- Claim C6: when every template in the heap is style free and the
compiler only produces style-free templates (so that every template
reachable through nested TemplateResult values and sequence-valued
bindings is style free as well), extraction leaves the index of every
BindingPoint of every existing template unchanged and appends nothing to
the side style sink, whether or not it completes normally. -/
theorem extract_style_free_noop (compile : Compile) (cfg : ShadyCfg)
    (sc : String) (result : TemplateResult) (st : St)
    (hinv : CacheInv st) (hsf : heapStyleFree st) (hcf : compileStyleFree compile) :
    (extractStylesFromTemplate compile cfg sc result st).2.sink = st.sink
    ∧ ∀ t, t < st.nextId →
        ((extractStylesFromTemplate compile cfg sc result st).2.heap t).parts.map Part.index
          = (st.heap t).parts.map Part.index := by
  have h := (extractStylesFromTemplate_pres compile cfg sc result st).2 hinv hsf hcf
  exact ⟨h.sink, fun t ht => (h.heap t ht).1⟩

theorem extract_style_free_noop_witness :
    (extractStylesFromTemplate compile0 cfg0 "w6" resC6w stC6w).2.sink = stC6w.sink
    ∧ ((extractStylesFromTemplate compile0 cfg0 "w6" resC6w stC6w).2.heap 0).parts.map
          Part.index
        = (stC6w.heap 0).parts.map Part.index :=
  ⟨(extract_style_free_noop compile0 cfg0 "w6" resC6w stC6w
      (cacheInv_singleTemplateSt _ _ _ _)
      (heapStyleFree_singleTemplateSt _ _ _ _ (by decide))
      compileStyleFree_compile0).1,
   (extract_style_free_noop compile0 cfg0 "w6" resC6w stC6w
      (cacheInv_singleTemplateSt _ _ _ _)
      (heapStyleFree_singleTemplateSt _ _ _ _ (by decide))
      compileStyleFree_compile0).2 0 (by simp [stC6w, singleTemplateSt])⟩

/-! ### Render dispatcher lemmas -/

theorem render_no_fixup (compile : Compile) (needs : Bool) (cfg : ShadyCfg)
    (result : TemplateResult) (container : Container) (sc : String) (st : St)
    (h : needs = false ∨ hostForNode container = none) :
    render compile needs cfg result container sc st
      = (none, emit (.baseRender false) st) := by
  rcases hh : hostForNode container with _ | host
  · simp [render, hh]
  · rcases h with h | h
    · simp [render, hh, h]
    · rw [hh] at h
      cases h

theorem render_gated (compile : Compile) (cfg : ShadyCfg)
    (result : TemplateResult) (container : Container) (sc : String) (st : St) (host : Nat)
    (hh : hostForNode container = some host) (hg : sc ∈ st.gate) :
    render compile true cfg result container sc st
      = (none, emit (.baseRender true) (emit (.styleElementOn host) st)) := by
  simp [render, hh, hg]

theorem render_ungated_facts (compile : Compile) (cfg : ShadyCfg)
    (result : TemplateResult) (container : Container) (sc : String) (st : St) (host : Nat)
    (hh : hostForNode container = some host) (hg : sc ∉ st.gate) :
    (render compile true cfg result container sc st).2.gate = sc :: st.gate
    ∧ ((render compile true cfg result container sc st).1 = none →
        ∃ d1 d2,
          (render compile true cfg result container sc st).2.trace
            = st.trace ++ [Event.extractInvoked sc] ++ d1
              ++ [Event.prepareTemplateStyles sc] ++ d2
              ++ [Event.styleElementOn host, Event.baseRender true]
          ∧ (∀ e ∈ d1, ∃ s2, e = Event.prepareTemplateDom s2)
          ∧ (∀ e ∈ d2, ∃ s2, e = Event.prepareTemplateDom s2))
    ∧ ((render compile true cfg result container sc st).1 ≠ none →
        ∃ d1,
          (render compile true cfg result container sc st).2.trace
            = st.trace ++ [Event.extractInvoked sc] ++ d1
          ∧ (∀ e ∈ d1, (∃ s2, e = Event.prepareTemplateDom s2)
              ∨ e = Event.prepareTemplateStyles sc)) := by
  have hA := (extractStylesFromTemplate_pres compile cfg sc result
    (emit (.extractInvoked sc) { st with gate := sc :: st.gate, sink := [] })).1
  simp only [render, hh, hg, if_false, if_true]
  rcases hex : extractStylesFromTemplate compile cfg sc result
      (emit (.extractInvoked sc) { st with gate := sc :: st.gate, sink := [] })
    with ⟨e1, st3⟩
  rw [hex] at hA
  obtain ⟨⟨d1, hd1, hd1p⟩, hg3, _, _, _⟩ := hA
  simp only [emit] at hd1 hg3
  cases e1 with
  | some err =>
      simp only []
      refine ⟨hg3, ?_, ?_⟩
      · intro hcon
        cases hcon
      · intro _
        exact ⟨d1, by simpa [List.append_assoc] using hd1,
          fun e he => Or.inl (hd1p e he)⟩
  | none =>
      cases hpe : cfg.prepareStylesErr with
      | some err =>
          simp only [hpe]
          refine ⟨by simpa [emit] using hg3, ?_, ?_⟩
          · intro hcon
            cases hcon
          · intro _
            refine ⟨d1 ++ [Event.prepareTemplateStyles sc], ?_, ?_⟩
            · simp only [emit, hd1]
              simp [List.append_assoc]
            · intro e he
              rcases List.mem_append.mp he with h2 | h2
              · exact Or.inl (hd1p e h2)
              · simp at h2
                exact Or.inr h2
      | none =>
          simp only [hpe]
          by_cases hns : cfg.nativeShadow = true
          · simp only [hns, if_true]
            rcases hq : querySelectorStyleList
                (emit (.prepareTemplateStyles sc) st3).sink with _ | style
            · simp only [hq]
              refine ⟨by simpa [emit] using hg3, ?_, ?_⟩
              · intro _
                refine ⟨d1, [], ?_, hd1p, by simp⟩
                simp only [emit, hd1]
                simp [List.append_assoc]
              · intro hcon
                exact absurd rfl hcon
            · simp only [hq]
              rcases hfac : shadyTemplateFactory compile cfg sc result
                  (emit (.prepareTemplateStyles sc) st3) with ⟨tid2, stf⟩
              have hfA := shadyTemplateFactory_presA compile cfg sc result
                (emit (.prepareTemplateStyles sc) st3)
              rw [hfac] at hfA
              obtain ⟨⟨d2, hd2, hd2p⟩, hg4, _, _, _⟩ := hfA
              simp only [emit] at hd2 hg4
              simp only [hfac]
              refine ⟨by simpa [emit] using hg4.trans hg3, ?_, ?_⟩
              · intro _
                refine ⟨d1, d2, ?_, hd1p, hd2p⟩
                simp only [emit, hd2, hd1]
                simp [List.append_assoc]
              · intro hcon
                exact absurd rfl hcon
          · simp only [Bool.not_eq_true] at hns
            simp only [hns, Bool.false_eq_true, if_false]
            refine ⟨by simpa [emit] using hg3, ?_, ?_⟩
            · intro _
              refine ⟨d1, [], ?_, hd1p, by simp⟩
              simp only [emit, hd1]
              simp [List.append_assoc]
            · intro hcon
              exact absurd rfl hcon

/-- Claim C1 counterexample: with window.ShadyCSS present, nativeShadow
reported and no ApplyShim at module load, needsStyleFixup is false, so a
render call into a fragment with a host invokes no styleElement hook at
all and delegates directly to the base render primitive - even though the
capability is present, the container has a host, and the call-time flags
(no native shadow) would demand the styling machinery. -/
theorem render_skips_styleElement_counterexample :
    needsStyleFixup ⟨true, true, false, none⟩ = false
  ∧ needsStyleFixup cfg0 = true
  ∧ hostForNode ⟨true, some 5⟩ = some 5
  ∧ (render compile0 (needsStyleFixup ⟨true, true, false, none⟩) cfg0
       (.mk "html" 9 []) ⟨true, some 5⟩ "cx" initSt).2.trace.count
         (Event.styleElementOn 5) = 0
  ∧ (render compile0 (needsStyleFixup ⟨true, true, false, none⟩) cfg0
       (.mk "html" 9 []) ⟨true, some 5⟩ "cx" initSt).2.trace
      = [Event.baseRender false] := by
  refine ⟨rfl, rfl, rfl, ?_, ?_⟩ <;>
    simp [render, needsStyleFixup, hostForNode, emit, initSt]

/-- Claim C1 (amended): styleElement is invoked on the container host
immediately before delegating to the base render primitive exactly when
the module-load constant needsStyleFixup is true and the container has a
host; when needsStyleFixup is false (for instance native shadow support
with no ApplyShim at module load) or the container has no host, render
delegates directly to the base render primitive, without styleElement,
whatever the call-time flags say. -/
theorem render_styleElement_before_baseRender (compile : Compile)
    (loadCfg cfg : ShadyCfg) (result : TemplateResult) (container : Container)
    (sc : String) (st : St) :
    (∀ host, needsStyleFixup loadCfg = true → hostForNode container = some host →
      (render compile (needsStyleFixup loadCfg) cfg result container sc st).1 = none →
      ∃ pre, (render compile (needsStyleFixup loadCfg) cfg result container sc st).2.trace
        = st.trace ++ pre ++ [Event.styleElementOn host, Event.baseRender true])
    ∧ ((needsStyleFixup loadCfg = false ∨ hostForNode container = none) →
      render compile (needsStyleFixup loadCfg) cfg result container sc st
        = (none, emit (.baseRender false) st)) := by
  constructor
  · intro host hneeds hh hok
    rw [hneeds] at hok ⊢
    by_cases hg : sc ∈ st.gate
    · rw [render_gated compile cfg result container sc st host hh hg]
      exact ⟨[], by simp [emit, List.append_assoc]⟩
    · obtain ⟨_, hshape, _⟩ :=
        render_ungated_facts compile cfg result container sc st host hh hg
      obtain ⟨d1, d2, htr, _, _⟩ := hshape hok
      refine ⟨[Event.extractInvoked sc] ++ d1 ++ [Event.prepareTemplateStyles sc] ++ d2, ?_⟩
      rw [htr]
      simp [List.append_assoc]
  · intro h
    exact render_no_fixup compile _ cfg result container sc st h

theorem render_styleElement_before_baseRender_witness :
    (needsStyleFixup cfg0 = true
      ∧ hostForNode ⟨true, some 5⟩ = some 5
      ∧ (render compile0 (needsStyleFixup cfg0) cfg0 (.mk "html" 9 [])
          ⟨true, some 5⟩ "w1" initSt).1 = none)
    ∧ (∃ pre, (render compile0 (needsStyleFixup cfg0) cfg0 (.mk "html" 9 [])
          ⟨true, some 5⟩ "w1" initSt).2.trace
        = initSt.trace ++ pre ++ [Event.styleElementOn 5, Event.baseRender true]) :=
  ⟨⟨rfl, rfl, by
      simp [render, needsStyleFixup, hostForNode, emit, initSt, shadyTemplateFactory,
        extractStylesFromTemplate, walkNodes, flattenForest, compile0,
        Function.update, TemplateResult.type, TemplateResult.stringsId,
        removeStyleNodes, querySelectorStyleList, cfg0]⟩,
   (render_styleElement_before_baseRender compile0 cfg0 cfg0 (.mk "html" 9 [])
      ⟨true, some 5⟩ "w1" initSt).1 5 rfl rfl (by
      simp [render, needsStyleFixup, hostForNode, emit, initSt, shadyTemplateFactory,
        extractStylesFromTemplate, walkNodes, flattenForest, compile0,
        Function.update, TemplateResult.type, TemplateResult.stringsId,
        removeStyleNodes, querySelectorStyleList, cfg0])⟩

/-- Claim C10: the gate is marked before extraction begins: on the fixup
path with an ungated scope the scope is in the gate afterwards even when
extraction or the prepareTemplateStyles hook raises; the gate only grows
under any render call; and a render call for a gated scope performs no
extraction at all - it only invokes styleElement on the host and delegates
to the base render primitive.  Together: after a failed first render for a
scope, no later render call for that scope ever retries extraction or
style processing. -/
theorem render_gate_marked_before_extraction (compile : Compile) (cfg : ShadyCfg)
    (result : TemplateResult) (container : Container) (sc : String) (st : St)
    (host : Nat) :
    (hostForNode container = some host → sc ∉ st.gate →
      ∀ e, (render compile true cfg result container sc st).1 = some e →
        sc ∈ (render compile true cfg result container sc st).2.gate)
    ∧ (∀ needs sc2, sc ∈ st.gate →
        sc ∈ (render compile needs cfg result container sc2 st).2.gate)
    ∧ (hostForNode container = some host → sc ∈ st.gate →
        render compile true cfg result container sc st
          = (none, emit (.baseRender true) (emit (.styleElementOn host) st))) := by
  refine ⟨?_, ?_, ?_⟩
  · intro hh hg e _
    have hgate := (render_ungated_facts compile cfg result container sc st host hh hg).1
    rw [hgate]
    simp
  · intro needs sc2 hmem
    rcases hh : hostForNode container with _ | h2
    · rw [render_no_fixup compile needs cfg result container sc2 st (Or.inr hh)]
      simpa [emit] using hmem
    · cases needs with
      | false =>
          rw [render_no_fixup compile false cfg result container sc2 st (Or.inl rfl)]
          simpa [emit] using hmem
      | true =>
          by_cases hg2 : sc2 ∈ st.gate
          · rw [render_gated compile cfg result container sc2 st h2 hh hg2]
            simpa [emit] using hmem
          · have hgate := (render_ungated_facts compile cfg result container
              sc2 st h2 hh hg2).1
            rw [hgate]
            simp [hmem]
  · intro hh hg
    exact render_gated compile cfg result container sc st host hh hg

theorem render_gate_marked_before_extraction_witness :
    (hostForNode ⟨true, some 3⟩ = some 3
      ∧ ("t10" ∉ stC10.gate)
      ∧ (render compile0 true cfg0 (.mk "html" 8 [.nullV]) ⟨true, some 3⟩ "t10" stC10).1
          = some .typeError)
    ∧ "t10" ∈ (render compile0 true cfg0 (.mk "html" 8 [.nullV])
        ⟨true, some 3⟩ "t10" stC10).2.gate :=
  ⟨⟨rfl, by simp [stC10, singleTemplateSt], by
      simp [render, hostForNode, emit, stC10, singleTemplateSt, shadyTemplateFactory,
        extractStylesFromTemplate, walkNodes, flattenForest, flattenNode, compile0,
        Function.update, TemplateResult.type, TemplateResult.stringsId, tmplC10,
        isStyleNode, setPartIndex, extractStylesFromValue, cfg0]⟩,
   (render_gate_marked_before_extraction compile0 cfg0 (.mk "html" 8 [.nullV])
      ⟨true, some 3⟩ "t10" stC10 3).1 rfl (by simp [stC10, singleTemplateSt])
      .typeError (by
      simp [render, hostForNode, emit, stC10, singleTemplateSt, shadyTemplateFactory,
        extractStylesFromTemplate, walkNodes, flattenForest, flattenNode, compile0,
        Function.update, TemplateResult.type, TemplateResult.stringsId, tmplC10,
        isStyleNode, setPartIndex, extractStylesFromValue, cfg0])⟩

theorem factoryMany_cacheMono (compile : Compile) (cfg : ShadyCfg) :
    ∀ (mid : List (String × TemplateResult)) (st : St) (key : String)
      (m : Nat → Option Nat) (sid tid : Nat),
    st.caches key = some m → m sid = some tid →
    ∃ m2, (factoryMany compile cfg mid st).caches key = some m2 ∧ m2 sid = some tid
  | [], st, key, m, sid, tid, h1, h2 => ⟨m, h1, h2⟩
  | (sc2, r2) :: rest, st, key, m, sid, tid, h1, h2 => by
      obtain ⟨_, _, _, _, hmono, _⟩ := shadyTemplateFactory_pres compile cfg sc2 r2 st
      obtain ⟨m2, hm2, hm2s⟩ := hmono key m sid tid h1 h2
      exact factoryMany_cacheMono compile cfg rest _ key m2 sid tid hm2 hm2s

/-- Claim C9: the factory produced by shadyTemplateFactory for a scope
returns the identical cached Template instance - the same heap id, which
models object identity - on every call whose TemplateResult has the same
kind and the same strings identity, no matter which other factory calls
happen in between; an in-place mutation of that template (such as style
reinjection) is therefore visible to every subsequent render using it. -/
theorem shadyTemplateFactory_same_instance (compile : Compile) (cfg : ShadyCfg)
    (sc : String) (r r2 : TemplateResult) (st : St)
    (mid : List (String × TemplateResult))
    (hty : r2.type = r.type) (hsid : r2.stringsId = r.stringsId) :
    (shadyTemplateFactory compile cfg sc r2
        (factoryMany compile cfg mid (shadyTemplateFactory compile cfg sc r st).2)).1
      = (shadyTemplateFactory compile cfg sc r st).1 := by
  obtain ⟨_, _, _, _, _, _, _, _, _, m2, hm2, hm2s⟩ :=
    shadyTemplateFactory_pres compile cfg sc r st
  obtain ⟨m3, hm3, hm3s⟩ := factoryMany_cacheMono compile cfg mid
    (shadyTemplateFactory compile cfg sc r st).2 (r.type ++ "--" ++ sc) m2
    r.stringsId (shadyTemplateFactory compile cfg sc r st).1 hm2 hm2s
  have hhit := shadyTemplateFactory_hit compile cfg sc r2
    (factoryMany compile cfg mid (shadyTemplateFactory compile cfg sc r st).2) m3
    (shadyTemplateFactory compile cfg sc r st).1
    (by rw [hty]; exact hm3) (by rw [hsid]; exact hm3s)
  rw [hhit]

theorem shadyTemplateFactory_same_instance_witness :
    (shadyTemplateFactory compile0 cfg0 "w9"
        (.mk "html" 3 [.scalar])
        (factoryMany compile0 cfg0 [("w9", .mk "svg" 11 [])]
          (shadyTemplateFactory compile0 cfg0 "w9" (.mk "html" 3 []) initSt).2)).1
      = (shadyTemplateFactory compile0 cfg0 "w9" (.mk "html" 3 []) initSt).1 :=
  shadyTemplateFactory_same_instance compile0 cfg0 "w9" (.mk "html" 3 [])
    (.mk "html" 3 [.scalar]) initSt [("w9", .mk "svg" 11 [])] rfl rfl

theorem prepDom_counts (d : List Event)
    (h : ∀ e ∈ d, ∃ s2, e = Event.prepareTemplateDom s2) (sc : String) :
    d.count (Event.extractInvoked sc) = 0
    ∧ d.count (Event.prepareTemplateStyles sc) = 0
    ∧ d.countP (fun e => isStyleElementEvent e) = 0 := by
  refine ⟨?_, ?_, ?_⟩
  · rw [List.count_eq_zero]
    intro hmem
    obtain ⟨s2, he⟩ := h _ hmem
    exact Event.noConfusion he
  · rw [List.count_eq_zero]
    intro hmem
    obtain ⟨s2, he⟩ := h _ hmem
    exact Event.noConfusion he
  · rw [List.countP_eq_zero]
    intro e hmem
    obtain ⟨s2, he⟩ := h e hmem
    subst he
    simp [isStyleElementEvent]

theorem render_step_counts (compile : Compile) (cfg : ShadyCfg)
    (r : TemplateResult) (c : Container) (sc2 sc : String) (st : St) (host : Nat)
    (hh : hostForNode c = some host)
    (hok : (render compile true cfg r c sc2 st).1 = none) :
    ((render compile true cfg r c sc2 st).2.trace.count (Event.extractInvoked sc)
        = st.trace.count (Event.extractInvoked sc)
          + (if sc2 = sc ∧ sc2 ∉ st.gate then 1 else 0))
    ∧ ((render compile true cfg r c sc2 st).2.trace.count (Event.prepareTemplateStyles sc)
        = st.trace.count (Event.prepareTemplateStyles sc)
          + (if sc2 = sc ∧ sc2 ∉ st.gate then 1 else 0))
    ∧ ((render compile true cfg r c sc2 st).2.trace.countP (fun e => isStyleElementEvent e)
        = st.trace.countP (fun e => isStyleElementEvent e) + 1)
    ∧ (sc2 ∈ st.gate → (render compile true cfg r c sc2 st).2.gate = st.gate)
    ∧ (sc2 ∉ st.gate → (render compile true cfg r c sc2 st).2.gate = sc2 :: st.gate) := by
  by_cases hg : sc2 ∈ st.gate
  · rw [render_gated compile cfg r c sc2 st host hh hg]
    have hcond : ¬(sc2 = sc ∧ sc2 ∉ st.gate) := by tauto
    refine ⟨?_, ?_, ?_, fun _ => rfl, fun hng => absurd hg hng⟩ <;>
      simp [emit, hcond, List.count_append, List.countP_append, isStyleElementEvent]
  · obtain ⟨hgate, hshape, _⟩ := render_ungated_facts compile cfg r c sc2 st host hh hg
    obtain ⟨d1, d2, htr, hd1p, hd2p⟩ := hshape hok
    obtain ⟨z11, z12, z13⟩ := prepDom_counts d1 hd1p sc
    obtain ⟨z21, z22, z23⟩ := prepDom_counts d2 hd2p sc
    refine ⟨?_, ?_, ?_, fun hmem => absurd hmem hg, fun _ => hgate⟩
    · rw [htr]
      by_cases he : sc2 = sc
      · subst he
        simp [List.count_append, z11, z21, hg]
      · simp [List.count_append, List.count_cons, z11, z21, he]
    · rw [htr]
      by_cases he : sc2 = sc
      · subst he
        simp [List.count_append, z12, z22, hg]
      · simp [List.count_append, List.count_cons, z12, z22, he]
    · rw [htr]
      simp only [isStyleElementEvent] at z13 z23
      simp [List.countP_append, z13, z23, isStyleElementEvent]


theorem renderMany_cons_err (compile : Compile) (needs : Bool) (cfg : ShadyCfg)
    (r : TemplateResult) (c : Container) (sc2 : String)
    (rest : List (TemplateResult × Container × String)) (st st1 : St) (e : JsError)
    (hren : render compile needs cfg r c sc2 st = (some e, st1)) :
    renderMany compile needs cfg ((r, c, sc2) :: rest) st = (some e, st1) := by
  simp only [renderMany, hren]

theorem renderMany_cons_ok (compile : Compile) (needs : Bool) (cfg : ShadyCfg)
    (r : TemplateResult) (c : Container) (sc2 : String)
    (rest : List (TemplateResult × Container × String)) (st st1 : St)
    (hren : render compile needs cfg r c sc2 st = (none, st1)) :
    renderMany compile needs cfg ((r, c, sc2) :: rest) st
      = renderMany compile needs cfg rest st1 := by
  conv_lhs => rw [renderMany]
  rw [hren]

theorem renderMany_counts (compile : Compile) (cfg : ShadyCfg) (sc : String) :
    ∀ (calls : List (TemplateResult × Container × String)) (st : St),
    (∀ call ∈ calls, ∃ h2, hostForNode call.2.1 = some h2) →
    (renderMany compile true cfg calls st).1 = none →
    st.trace.count (Event.extractInvoked sc) ≤ 1 →
    st.trace.count (Event.prepareTemplateStyles sc) ≤ 1 →
    (sc ∉ st.gate → st.trace.count (Event.extractInvoked sc) = 0
        ∧ st.trace.count (Event.prepareTemplateStyles sc) = 0) →
    ((renderMany compile true cfg calls st).2.trace.count (Event.extractInvoked sc) ≤ 1
     ∧ (renderMany compile true cfg calls st).2.trace.count
         (Event.prepareTemplateStyles sc) ≤ 1
     ∧ (renderMany compile true cfg calls st).2.trace.countP
           (fun e => isStyleElementEvent e)
         = st.trace.countP (fun e => isStyleElementEvent e) + calls.length)
  | [], st, _, _, h1, h2, _ => by
      simp only [renderMany, List.length_nil, Nat.add_zero]
      exact ⟨h1, h2, trivial⟩
  | (r, c, sc2) :: rest, st, hhost, hok, h1, h2, h3 => by
      obtain ⟨host, hh⟩ := hhost (r, c, sc2) (List.mem_cons_self _ _)
      rcases hren : render compile true cfg r c sc2 st with ⟨oe, st1⟩
      cases oe with
      | some e =>
          rw [renderMany_cons_err compile true cfg r c sc2 rest st st1 e hren] at hok
          exact absurd hok (by simp)
      | none =>
          rw [renderMany_cons_ok compile true cfg r c sc2 rest st st1 hren] at hok ⊢
          obtain ⟨c1, c2, c3, g1, g2⟩ :=
            render_step_counts compile cfg r c sc2 sc st host hh (by rw [hren])
          rw [hren] at c1 c2 c3 g1 g2
          have h1n : st1.trace.count (Event.extractInvoked sc) ≤ 1 := by
            by_cases hcond : sc2 = sc ∧ sc2 ∉ st.gate
            · have := (h3 (hcond.1 ▸ hcond.2)).1
              rw [c1, if_pos hcond, this]
            · rw [c1, if_neg hcond]
              simpa using h1
          have h2n : st1.trace.count (Event.prepareTemplateStyles sc) ≤ 1 := by
            by_cases hcond : sc2 = sc ∧ sc2 ∉ st.gate
            · have := (h3 (hcond.1 ▸ hcond.2)).2
              rw [c2, if_pos hcond, this]
            · rw [c2, if_neg hcond]
              simpa using h2
          have h3n : sc ∉ st1.gate →
              st1.trace.count (Event.extractInvoked sc) = 0
              ∧ st1.trace.count (Event.prepareTemplateStyles sc) = 0 := by
            intro hng
            have hng0 : sc ∉ st.gate := by
              by_cases hgin : sc2 ∈ st.gate
              · rw [g1 hgin] at hng
                exact hng
              · rw [g2 hgin] at hng
                exact fun hmem => hng (List.mem_cons_of_mem _ hmem)
            have hne : ¬(sc2 = sc ∧ sc2 ∉ st.gate) := by
              rintro ⟨he, hsg⟩
              by_cases hgin : sc2 ∈ st.gate
              · exact hsg hgin
              · rw [g2 hgin] at hng
                exact hng (he ▸ List.mem_cons_self _ _)
            obtain ⟨e1, e2⟩ := h3 hng0
            rw [c1, c2, if_neg hne, e1, e2]
            exact ⟨rfl, rfl⟩
          obtain ⟨a1, a2, a3⟩ := renderMany_counts compile cfg sc rest st1
            (fun call hm => hhost call (List.mem_cons_of_mem _ hm)) hok h1n h2n h3n
          refine ⟨a1, a2, ?_⟩
          rw [a3, c3, List.length_cons]
          omega

/-- Claim C8: for every scope name and every sequence of successful render
calls on the fixup path (each container having a host), the extraction pass
and prepareTemplateStyles run at most once for that scope - later calls for
the same scope skip extraction via the render gate - while styleElement is
invoked on every call (the total styleElement count equals the number of
calls), and on any first (ungated) call for the scope the trace records
extraction strictly before prepareTemplateStyles, which is strictly before
styleElement on the host. -/
theorem render_scope_processed_once (compile : Compile) (cfg : ShadyCfg)
    (sc : String) (calls : List (TemplateResult × Container × String)) (st : St)
    (h0a : st.trace.count (Event.extractInvoked sc) = 0)
    (h0b : st.trace.count (Event.prepareTemplateStyles sc) = 0)
    (h0c : st.trace.countP (fun e => isStyleElementEvent e) = 0)
    (hg0 : sc ∉ st.gate)
    (hhost : ∀ call ∈ calls, ∃ h2, hostForNode call.2.1 = some h2)
    (hok : (renderMany compile true cfg calls st).1 = none) :
    ((renderMany compile true cfg calls st).2.trace.count
        (Event.extractInvoked sc) ≤ 1)
    ∧ ((renderMany compile true cfg calls st).2.trace.count
        (Event.prepareTemplateStyles sc) ≤ 1)
    ∧ ((renderMany compile true cfg calls st).2.trace.countP
          (fun e => isStyleElementEvent e)
        = calls.length)
    ∧ (∀ (r : TemplateResult) (c : Container) (host : Nat) (st0 : St),
        hostForNode c = some host → sc ∉ st0.gate →
        (render compile true cfg r c sc st0).1 = none →
        ∃ d1 d2,
          (render compile true cfg r c sc st0).2.trace
            = st0.trace ++ [Event.extractInvoked sc] ++ d1
              ++ [Event.prepareTemplateStyles sc] ++ d2
              ++ [Event.styleElementOn host, Event.baseRender true]
          ∧ (∀ e ∈ d1, ∃ s2, e = Event.prepareTemplateDom s2)
          ∧ (∀ e ∈ d2, ∃ s2, e = Event.prepareTemplateDom s2)) := by
  obtain ⟨a1, a2, a3⟩ := renderMany_counts compile cfg sc calls st hhost hok
    (by omega) (by omega) (fun _ => ⟨h0a, h0b⟩)
  refine ⟨a1, a2, by omega, ?_⟩
  intro r c host st0 hh hg hok0
  obtain ⟨_, hshape, _⟩ := render_ungated_facts compile cfg r c sc st0 host hh hg
  exact hshape hok0


theorem render_scope_processed_once_witness :
    ((renderMany compile0 true cfg0 callsC8w initSt).2.trace.count
        (Event.extractInvoked "w8") ≤ 1)
    ∧ ((renderMany compile0 true cfg0 callsC8w initSt).2.trace.count
        (Event.prepareTemplateStyles "w8") ≤ 1)
    ∧ ((renderMany compile0 true cfg0 callsC8w initSt).2.trace.countP
          (fun e => isStyleElementEvent e)
        = callsC8w.length) :=
  have h := render_scope_processed_once compile0 cfg0 "w8" callsC8w initSt
    (by simp [initSt]) (by simp [initSt]) (by simp [initSt]) (by simp [initSt])
    (by
      intro call hm
      rcases List.mem_cons.mp hm with h1 | hm2
      · subst h1
        exact ⟨2, rfl⟩
      rcases List.mem_cons.mp hm2 with h1 | hm3
      · subst h1
        exact ⟨2, rfl⟩
      · exact absurd hm3 (List.not_mem_nil _))
    (by
      simp [renderMany, render, hostForNode, emit, initSt, callsC8w,
        shadyTemplateFactory, extractStylesFromTemplate, walkNodes,
        flattenForest, flattenNode, compile0, Function.update,
        TemplateResult.type, TemplateResult.stringsId, isStyleNode,
        setPartIndex, extractStylesFromValue, cfg0, querySelectorStyleList])
  ⟨h.1, h.2.1, h.2.2.1⟩

end ShadyRender
